import Mathlib

/-!
# AutoScrum — verification of the workflow/assignment core

A shallow embedding of the AutoScrum backend (Python) into Lean 4, covering:

* `PrioritizationAgent` (`backend/agents/prioritization_agent.py`): story
  prioritization, capacity-aware assignment, fallback assignment;
* `StoryCreatorAgent` (`backend/agents/story_creator_agent.py`): story
  formatting and the completeness precondition on stored contexts;
* `DynamicContextAgent` (`backend/agents/dynamic_context_agent.py`) together
  with `RedisClient.set_feature_context`
  (`backend/memory/redis_client.py`): the bounded clarification dialogue;
* `TranscriptAgent` (`backend/autoscrum/transcript_agent.py`): timeline
  triage, confidence scoring, idempotent dispatch.

Numeric values that are Python floats in the source are embedded as exact
rationals (`ℚ`); Python dictionaries that the code treats as records are
embedded as structures; JSON-shaped summaries are association lists from
keys to lists of strings (the shape the prompts request and the code
stores); fallible external calls (the LLM, ticket systems) are oracle
parameters of the embedded functions.
-/

namespace AutoScrum

/-! ## Shared string helpers

Python's `"pat" in text` test on lowercased text, used by the skill
extraction of the prioritization agent and the keyword detection of the
transcript agent.  `String.toLower` matches Python `str.lower()` on the
ASCII keywords that appear in the source. -/

/-- Python `pat in text` (substring containment). -/
def substrB (pat text : String) : Bool :=
  decide (pat.data <:+: text.data)

/-! ## PrioritizationAgent (`backend/agents/prioritization_agent.py`) -/

/-- A team member dictionary, with the `.get` defaults used by the code
(`max_capacity` defaults to 40, `current_load` to 0, `experience_level`
to `"mid"`, string fields to `""`). -/
structure Member where
  name : String
  email : String := ""
  id : Option Int := none
  job_title : String := ""
  experience_level : String := "mid"
  skills : List String := []
  max_capacity : ℚ := 40
  current_load : ℚ := 0
  effective_capacity : ℚ := 0
deriving Repr, DecidableEq, Inhabited

/-- A story dictionary as consumed by the assignment engine; absent keys
are `none` and are defaulted at use sites exactly as the `.get` calls do. -/
structure AStory where
  id : Option Int := none
  title : String := ""
  description : String := ""
  story_points : Option ℚ := none
  priority : Option String := none
  dependencies : List String := []
deriving Repr, DecidableEq, Inhabited

/-- `_calculate_effective_capacity` for one member:
`ratio = min(load/max, 1) if max > 0 else 0`;
`effective = max(max_capacity * (1 - ratio), 0)`.
(The `load_ratio` entry the code also stores is never read afterwards.) -/
def calcEffective (m : Member) : Member :=
  let ratio : ℚ := if 0 < m.max_capacity then min (m.current_load / m.max_capacity) 1 else 0
  { m with effective_capacity := max (m.max_capacity * (1 - ratio)) 0 }

/-- `priority_map.get(priority, 2)` with `{"high": 3, "medium": 2, "low": 1}`. -/
def priorityWeight (p : String) : ℚ :=
  if p = "high" then 3 else if p = "medium" then 2 else if p = "low" then 1 else 2

/-- `priority_score` of `_prioritize_stories` (the positive score; the code
sorts ascending by its negation):
`score = priority_value*100 - (10 if has_dependencies) - story_points*0.5`. -/
def priorityScore (s : AStory) : ℚ :=
  priorityWeight (s.priority.getD "medium") * 100
    - (if 0 < s.dependencies.length then 10 else 0)
    - (s.story_points.getD 3) * (1/2)

/-- `_prioritize_stories`: Python's stable `sorted` with key `-score`,
i.e. a stable merge sort putting higher scores first. -/
def prioritizeStories (stories : List AStory) : List AStory :=
  stories.mergeSort (fun a b => decide (priorityScore b ≤ priorityScore a))

/-- `sorted(team_members, key=effective_capacity, reverse=True)`:
stable, descending by effective capacity. -/
def sortTeamByCapacity (team : List Member) : List Member :=
  team.mergeSort (fun a b => decide (b.effective_capacity ≤ a.effective_capacity))

/-- `_extract_required_skills`: keyword buckets matched against
`(title + " " + description).lower()`.  The Python code wraps the result
in `list(set(...))`; since the bucket tags are pairwise distinct the set
has exactly these elements, and every consumer treats the result as a
set. -/
def extractRequiredSkills (title description : String) : List String :=
  let text := (title ++ " " ++ description).toLower
  let dev := ["develop", "code", "implement", "backend", "frontend", "api", "database", "feature"]
  let qa := ["test", "qa", "quality", "verify", "validation", "automat"]
  let ops := ["deploy", "devops", "infrastructure", "ci/cd", "pipeline", "monitor", "alert"]
  let ui := ["ui", "ux", "design", "interface", "user experience", "dashboard"]
  let arch := ["architect", "design", "scalab", "system design", "integration"]
  let s0 : List String := []
  let s1 := if dev.any (fun k => substrB k text) then s0 ++ ["development", "developer"] else s0
  let s2 := if qa.any (fun k => substrB k text) then s1 ++ ["testing", "qa", "tester"] else s1
  let s3 := if ops.any (fun k => substrB k text) then s2 ++ ["devops", "infrastructure"] else s2
  let s4 := if ui.any (fun k => substrB k text) then s3 ++ ["frontend", "ui"] else s3
  let s5 := if arch.any (fun k => substrB k text) then s4 ++ ["architecture", "senior"] else s4
  s5

/-- Member skill set: declared skills plus the role-based skills inferred
from the lowercased job title (`_find_best_assignee`, lines 380-397).
Only membership is ever tested, so a list models the Python set. -/
def memberSkills (m : Member) : List String :=
  let jt := m.job_title.toLower
  let s0 := m.skills
  let s1 := if substrB "developer" jt || substrB "engineer" jt then s0 ++ ["developer", "development"] else s0
  let s2 := if substrB "qa" jt || substrB "test" jt then s1 ++ ["qa", "testing", "tester"] else s1
  let s3 := if substrB "devops" jt then s2 ++ ["devops", "infrastructure"] else s2
  let s4 := if substrB "architect" jt then s3 ++ ["architecture", "senior"] else s3
  s4

/-- The two candidate checks of `_find_best_assignee`:
`current_load + story_points > MAX (= 5) → skip` and
`effective_capacity < story_points → skip`. -/
def eligibleB (m : Member) (pts : ℚ) : Bool :=
  !(decide (5 < m.current_load + pts)) && !(decide (m.effective_capacity < pts))

/-- Composite score of `_find_best_assignee`:
`skill_score * role_bonus * 0.6 + balance_score * 0.3 + experience_bonus * 0.1`. -/
def scoreOf (m : Member) (required : List String) : ℚ :=
  let ms := memberSkills m
  let rs := required.dedup
  let overlap : ℚ := (rs.filter (fun k => ms.contains k)).length
  let skill_score : ℚ := if rs.isEmpty then 1/2 else overlap / rs.length
  let role_bonus : ℚ := if !rs.isEmpty && decide (0 < overlap) then 2 else 1
  let balance_score : ℚ := 1 - m.current_load / 5
  let experience_bonus : ℚ :=
    if m.experience_level = "junior" then 4/5
    else if m.experience_level = "senior" then 6/5
    else 1
  skill_score * role_bonus * (3/5) + balance_score * (3/10) + experience_bonus * (1/10)

/-- The loop of `_find_best_assignee`: track the best `(index, score)` seen
so far, starting from `best_score = -1`, replacing only on a strictly
greater score. -/
def findBestGo (required : List String) (pts : ℚ) :
    List Member → Nat → Option (Nat × ℚ) → Option (Nat × ℚ)
  | [], _, best => best
  | m :: rest, i, best =>
    if eligibleB m pts && decide (((best.map Prod.snd).getD (-1)) < scoreOf m required) then
      findBestGo required pts rest (i + 1) (some (i, scoreOf m required))
    else
      findBestGo required pts rest (i + 1) best

/-- `_find_best_assignee`: index of the chosen member together with the
`match_confidence` (the composite score), or `none`. -/
def findBestAssignee (team : List Member) (required : List String) (pts : ℚ) :
    Option (Nat × ℚ) :=
  findBestGo required pts team 0 none

/-- The fallback selection `min(range(len(team)), key=current_load)`:
first index of minimal current load (`none` on an empty roster). -/
def argminLoadGo : List Member → Nat → Nat → ℚ → Nat
  | [], _, bi, _ => bi
  | m :: rest, i, bi, bv =>
    if m.current_load < bv then argminLoadGo rest (i + 1) i m.current_load
    else argminLoadGo rest (i + 1) bi bv

def argminLoad : List Member → Option Nat
  | [] => none
  | m :: rest => some (argminLoadGo rest 1 0 m.current_load)

/-- One assignment record (`assignments.append({...})`). -/
structure Assignment where
  story_id : Int
  story_title : String
  story_points : ℚ
  priority : String
  assignee : Option String
  assignee_email : Option String
  assignee_id : Option Int
  confidence : ℚ
deriving Repr, DecidableEq

/-- In-place update of the chosen member inside the roster list. -/
def updAt : List Member → Nat → (Member → Member) → List Member
  | [], _, _ => []
  | m :: rest, 0, f => f m :: rest
  | m :: rest, i + 1, f => m :: updAt rest i f

/-- One iteration of the story loop in `_assign_stories`: find the best
assignee; on success bump their load in place; otherwise fall back to the
least-loaded member (confidence 0.3), or leave the story unassigned when
the roster is empty. -/
def assignStep (idx : Nat) (team : List Member) (story : AStory) :
    List Member × Assignment :=
  let pts := story.story_points.getD 3
  let required := extractRequiredSkills story.title story.description
  let base : Assignment :=
    { story_id := story.id.getD (Int.ofNat idx), story_title := story.title,
      story_points := pts, priority := story.priority.getD "medium",
      assignee := none, assignee_email := none, assignee_id := none, confidence := 0 }
  match findBestAssignee team required pts with
  | some (i, conf) =>
    let m := (team.get? i).getD default
    (updAt team i (fun mm =>
        { mm with effective_capacity := mm.effective_capacity - pts,
                  current_load := mm.current_load + pts }),
     { base with assignee := some m.name, assignee_email := some m.email,
                 assignee_id := m.id, confidence := conf })
  | none =>
    match argminLoad team with
    | none => (team, base)
    | some fi =>
      let m := (team.get? fi).getD default
      (updAt team fi (fun mm =>
          { mm with effective_capacity := max 0 (mm.effective_capacity - pts),
                    current_load := mm.current_load + pts }),
       { base with assignee := some m.name, assignee_email := some m.email,
                   assignee_id := m.id, confidence := 3/10 })

/-- The story loop of `_assign_stories` (`enumerate(stories)` threading the
mutated roster). -/
def assignGo : Nat → List AStory → List Member → List Assignment × List Member
  | _, [], team => ([], team)
  | i, s :: rest, team =>
    let step := assignStep i team s
    let restRes := assignGo (i + 1) rest step.1
    (step.2 :: restRes.1, restRes.2)

/-- `_assign_stories`: sort the roster by effective capacity, then assign
each story in order. -/
def assignStories (stories : List AStory) (team : List Member) :
    List Assignment × List Member :=
  assignGo 0 stories (sortTeamByCapacity team)

/-- The assignment pipeline of `execute`: compute effective capacities,
prioritize, assign.  (Team-load statistics and warnings are computed from
the same `assignments` list afterwards and do not alter it.) -/
def assignmentEngine (stories : List AStory) (team : List Member) : List Assignment :=
  (assignStories (prioritizeStories stories) (team.map calcEffective)).1

/-! ## DynamicContextAgent (`backend/agents/dynamic_context_agent.py`) and
`RedisClient.set_feature_context` (`backend/memory/redis_client.py`)

The structured context summary is an association list from keys to lists
of strings (the JSON shape the prompts request).  The reasoning service is
an oracle parameter: `Except Unit _` models "the LLM call returned this
parsed JSON" vs "the call raised" (`generate_json_response` raises on
transport errors and unparsable output). -/

/-- A JSON-shaped summary document: keys mapped to lists of strings. -/
abbrev Summary := List (String × List String)

/-- The six keys required of a complete context summary. -/
def requiredKeys : List String :=
  ["goals", "user_personas", "key_features", "acceptance_criteria",
   "technical_constraints", "success_metrics"]

/-- Does a summary contain all six required keys? -/
def hasAllKeys (s : Summary) : Bool :=
  requiredKeys.all (fun k => s.any (fun kv => kv.fst = k))

/-- Python truthiness of an optional dict (`None` and `{}` are falsy). -/
def pyTruthySummary : Option Summary → Bool
  | none => false
  | some s => !s.isEmpty

/-- Python truthiness of an optional string (`None` and `""` are falsy). -/
def pyTruthyStr : Option String → Bool
  | none => false
  | some s => !s.isEmpty

/-- `dict.update`: keys of `upd` override keys of `base`; remaining keys
of `base` survive.  (Python keeps overridden keys in their original
position; only the resulting key/value association matters here.) -/
def updateKeys (base upd : Summary) : Summary :=
  base.filter (fun kv => !(upd.any (fun kv2 => kv2.fst = kv.fst))) ++ upd

/-- One conversation message (`{"role": ..., "content": ...}`). -/
structure Msg where
  role : String
  content : String
deriving Repr, DecidableEq

/-- The persisted feature context document, with the `.get` defaults the
agent uses (`questions_asked` defaults to 0, `is_complete` to false).
`merged` holds the top-level keys added by `context.update(summary)`. -/
structure FeatureContext where
  feature_name : Option String := none
  feature_description : Option String := none
  questions_asked : Nat := 0
  is_complete : Bool := false
  context_summary : Option Summary := none
  forced_completion : Bool := false
  merged : Summary := []
deriving Repr, DecidableEq

/-- Parsed JSON of the main clarification call
(`{"question": ..., "is_complete": ..., "context_summary": ...}`). -/
structure ClarifyResponse where
  question : Option String := none
  is_complete : Bool := false
  context_summary : Option Summary := none
deriving Repr, DecidableEq

/-- Parsed JSON of the synthesis call in `_generate_context_summary`:
`nested` is the value of a `"context_summary"` key when present and a
dict; `whole` is the whole response document.  (A response that is not a
dict at all is modelled as the `.error` case of the oracle, since the
code maps both to `None`.) -/
structure SynthResponse where
  nested : Option Summary := none
  whole : Summary := []
deriving Repr, DecidableEq

/-- `_generate_context_summary`: `None` on empty history or a failed call,
the nested `context_summary` block when present, else the whole response. -/
def genContextSummary (history : List Msg) (osynth : Except Unit SynthResponse) :
    Option Summary :=
  if history.isEmpty then none
  else
    match osynth with
    | .error _ => none
    | .ok r =>
      match r.nested with
      | some inner => some inner
      | none => some r.whole

/-- The minimal default summary fabricated by `_force_completion` when
synthesis yields nothing. -/
def defaultSummary (c : FeatureContext) : Summary :=
  [("goals", ["Feature implementation and delivery"]),
   ("user_personas", ["End users"]),
   ("key_features", [c.feature_name.getD "Feature"]),
   ("acceptance_criteria", ["Feature meets basic requirements"]),
   ("technical_constraints", ["Standard web application constraints"]),
   ("success_metrics", ["Successful deployment and user adoption"])]

/-- The agent's result dictionary. -/
structure ClarifyOutput where
  question : Option String := none
  is_complete : Bool := false
  context_summary : Option Summary := none
  conversation_history : List Msg := []
  forced_completion : Bool := false
deriving Repr, DecidableEq

/-- The ContextStore entry for one feature id: the stored context together
with the TTL (seconds) it was last written with.  `set_feature_context`
has `ttl: int = 3600` and the agent never passes a different value. -/
abbrev CtxStore := Option (FeatureContext × Nat)

/-- The canned finalize question substituted when completion was signalled
but synthesis also failed. -/
def finalizeQuestion : String :=
  "Thanks for the detailed response! To finalize the clarification, " ++
  "could you summarize the goals, key user personas, core features, " ++
  "acceptance criteria, technical constraints, and success metrics?"

/-- The canned follow-up substituted when no completion and no question. -/
def defaultFollowUp : String :=
  "Could you provide more details about the remaining aspects? " ++
  "Please share information about the goals, user personas, key features, " ++
  "acceptance criteria, technical constraints, and success metrics."

/-- The summary used by `_force_completion`: the synthesized one when
truthy, else the minimal default. -/
def forcedSummary (ctx : FeatureContext) (history : List Msg)
    (osynth : Except Unit SynthResponse) : Summary :=
  let synth := genContextSummary history osynth
  if pyTruthySummary synth then synth.getD [] else defaultSummary ctx

/-- `_force_completion`: synthesize a summary from the history, fall back
to the minimal default, store the completed context (default TTL), and
answer with `is_complete`/`forced_completion` true and no question. -/
def forceCompletion (ctx : FeatureContext) (history : List Msg)
    (osynth : Except Unit SynthResponse) : CtxStore × ClarifyOutput :=
  let summary := forcedSummary ctx history osynth
  let ctx' := { ctx with
      merged := updateKeys ctx.merged summary,
      context_summary := some summary,
      is_complete := true,
      forced_completion := true }
  (some (ctx', 3600),
   { question := none, is_complete := true, context_summary := some summary,
     conversation_history := history, forced_completion := true })

/-- The agent's input dictionary. -/
structure ClarifyInput where
  feature_name : Option String := none
  feature_description : Option String := none
  user_response : Option String := none
  conversation_history : List Msg := []
deriving Repr, DecidableEq

/-- `context = self.redis_client.get_feature_context(feature_id) or {}`. -/
def storedCtx (store : CtxStore) : FeatureContext :=
  (store.map Prod.fst).getD {}

/-- The first-interaction branch of `execute` (empty history): ask the
opening question, seed the history with the synthetic first turn pair,
set the counter to 1 and persist (default TTL). -/
def firstCall (ctx : FeatureContext) (inp : ClarifyInput) (r : ClarifyResponse) :
    CtxStore × ClarifyOutput :=
  let hist := inp.conversation_history ++
    [{ role := "user",
       content := "Feature: " ++ inp.feature_name.getD "None" ++
         "\nDescription: " ++ inp.feature_description.getD "None" },
     { role := "assistant", content := r.question.getD "" }]
  let ctx' := { ctx with
      feature_name := inp.feature_name,
      feature_description := inp.feature_description,
      questions_asked := 1 }
  (some (ctx', 3600),
   { question := r.question, is_complete := false, context_summary := none,
     conversation_history := hist })

/-- The completion/synthesis fallback of the continuing branch
(`execute`, lines 159-172), producing the effective
`(is_complete, question, context_summary)` triple: completion signalled
without a truthy summary triggers synthesis; failed synthesis flips back
to incomplete with the canned finalize question. -/
def continueStep1 (hist1 : List Msg) (r : ClarifyResponse)
    (osynth : Except Unit SynthResponse) : Bool × Option String × Option Summary :=
  if r.is_complete && !(pyTruthySummary r.context_summary) then
    let s := genContextSummary hist1 osynth
    if pyTruthySummary s then (true, r.question, s)
    else (false, some finalizeQuestion, s)
  else (r.is_complete, r.question, r.context_summary)

/-- The context update of the continuing branch (`execute`, lines
188-196): merge and store the summary with the completion flag when
complete-and-truthy, else flag incomplete; bump the counter either way. -/
def continueCtx (ctx : FeatureContext) (isC : Bool) (sum : Option Summary) :
    FeatureContext :=
  if isC && pyTruthySummary sum then
    { ctx with
        merged := updateKeys ctx.merged (sum.getD []),
        context_summary := some (sum.getD []),
        is_complete := true,
        questions_asked := ctx.questions_asked + 1 }
  else
    { ctx with is_complete := false, questions_asked := ctx.questions_asked + 1 }

/-- The continuing-conversation branch of `execute`: append the answer,
apply the completion/synthesis/canned-question fallbacks, update and
persist the context (default TTL). -/
def continueCall (ctx : FeatureContext) (inp : ClarifyInput) (r : ClarifyResponse)
    (osynth : Except Unit SynthResponse) : CtxStore × ClarifyOutput :=
  let hist1 := inp.conversation_history ++
    [{ role := "user", content := inp.user_response.getD "" }]
  let st1 := continueStep1 hist1 r osynth
  let isC := st1.1
  let sum := st1.2.2
  -- Not complete and no (truthy) question: canned follow-up.
  let q := if !isC && !(pyTruthyStr st1.2.1) then some defaultFollowUp else st1.2.1
  let hist2 :=
    if !isC && pyTruthyStr q then hist1 ++ [{ role := "assistant", content := q.getD "" }]
    else hist1
  (some (continueCtx ctx isC sum, 3600),
   { question := if isC then none else q, is_complete := isC,
     context_summary := if isC then sum else none,
     conversation_history := hist2 })

/-- `DynamicContextAgent.execute` for one feature id.  `omain` is the
parsed JSON of the main LLM call (first question or next-step decision),
`osynth` that of the synthesis call; `.error` propagates out of `execute`
for the unguarded main call.  A missing `user_response` is modelled as
`""` in the appended message. -/
def executeClarify (store : CtxStore) (inp : ClarifyInput)
    (omain : Except Unit ClarifyResponse) (osynth : Except Unit SynthResponse) :
    Except Unit (CtxStore × ClarifyOutput) :=
  if 5 ≤ (storedCtx store).questions_asked then
    -- STRICT LIMIT reached: force completion before any LLM decision.
    .ok (forceCompletion (storedCtx store) inp.conversation_history osynth)
  else if inp.conversation_history.isEmpty then
    match omain with
    | .error e => .error e
    | .ok r => .ok (firstCall (storedCtx store) inp r)
  else
    match omain with
    | .error e => .error e
    | .ok r => .ok (continueCall (storedCtx store) inp r osynth)

/-- ContextStore states reachable by a sequence of successful clarification
calls on one feature, starting from an absent entry. -/
inductive ClarifyReachable : CtxStore → Prop where
  | init : ClarifyReachable none
  | step {s s' : CtxStore} {inp : ClarifyInput} {omain : Except Unit ClarifyResponse}
      {osynth : Except Unit SynthResponse} {out : ClarifyOutput} :
      ClarifyReachable s →
      executeClarify s inp omain osynth = .ok (s', out) →
      ClarifyReachable s'

/-! ## StoryCreatorAgent (`backend/agents/story_creator_agent.py`) -/

/-- A story as returned by the reasoning service (all keys optional). -/
structure RawStory where
  title : Option String := none
  description : Option String := none
  acceptance_criteria : Option (List String) := none
  story_points : Option Int := none
  priority : Option String := none
  dependencies : Option (List String) := none
deriving Repr, DecidableEq

/-- A formatted story as produced by `execute` for the database/Jira. -/
structure FormattedStory where
  title : String
  description : String
  acceptance_criteria : List String
  story_points : Int
  priority : String
  dependencies : List String
  order : Nat
deriving Repr, DecidableEq

/-- Formatting of one story (`execute`, lines 85-95): `.get` defaults and
the 1-based `order` index. -/
def formatStory (idx : Nat) (s : RawStory) : FormattedStory :=
  { title := s.title.getD "",
    description := s.description.getD "",
    acceptance_criteria := s.acceptance_criteria.getD [],
    story_points := s.story_points.getD 3,
    priority := s.priority.getD "medium",
    dependencies := s.dependencies.getD [],
    order := idx + 1 }

/-- An epic object of the response. -/
structure Epic where
  title : String := ""
  description : String := ""
  objectives : List String := []
deriving Repr, DecidableEq

/-- Parsed JSON of the story-generation LLM call. -/
structure StoryGenResponse where
  epic : Option Epic := none
  stories : Option (List RawStory) := none
deriving Repr, DecidableEq

/-- Result dictionary of `StoryCreatorAgent.execute`. -/
structure StoryGenResult where
  epic : Option Epic
  stories : List FormattedStory
  total_story_points : Int
  story_count : Nat
deriving Repr, DecidableEq

/-- `StoryCreatorAgent.execute` after the LLM call: extract stories
(default `[]`), total the raw `story_points` with missing values counted
as 0, and format each story in order. -/
def executeStoryGen (generate_epic : Bool) (resp : StoryGenResponse) : StoryGenResult :=
  let stories := resp.stories.getD []
  let total := (stories.map (fun s => s.story_points.getD 0)).sum
  let formatted := stories.enum.map (fun p => formatStory p.1 p.2)
  { epic := if generate_epic then resp.epic else none,
    stories := formatted,
    total_story_points := total,
    story_count := formatted.length }

/-- Errors of `generate_from_feature_id` (both are `ValueError`s in the
source; the spec names the completeness one `IncompleteContextError`). -/
inductive StoryGenError
  | noContext
  | incompleteContext
deriving Repr, DecidableEq

/-- Does the stored context contain a key at top level?  (The six required
keys can only enter a context through `context.update(summary)`, i.e.
through `merged`.) -/
def ctxHasKey (c : FeatureContext) (k : String) : Bool :=
  c.merged.any (fun kv => kv.fst = k)

/-- The precondition/normalization step of `generate_from_feature_id`
(lines 214-247): accept a complete context unchanged; otherwise back-fill
from a non-empty nested `context_summary` dict, or accept a context
already carrying all six required keys; otherwise fail. -/
def generateFromFeatureId (store : CtxStore) : Except StoryGenError FeatureContext :=
  match store with
  | none => .error .noContext
  | some (c, _) =>
    if c.is_complete then .ok c
    else if pyTruthySummary c.context_summary then
      .ok { c with
          merged := updateKeys c.merged (c.context_summary.getD []),
          is_complete := true }
    else if requiredKeys.all (fun k => ctxHasKey c k) then
      .ok { c with is_complete := true }
    else .error .incompleteContext

/-- `generate_from_feature_id` composed with `execute`: stories are
generated only when the precondition check passes. -/
def generateStoriesFromStore (store : CtxStore) (generate_epic : Bool)
    (resp : StoryGenResponse) : Except StoryGenError StoryGenResult :=
  match generateFromFeatureId store with
  | .error e => .error e
  | .ok _ => .ok (executeStoryGen generate_epic resp)

/-! ## TranscriptAgent (`backend/autoscrum/transcript_agent.py`)

The Jira-id regex (`extract_jira_ids`) and Python's string `hash` are
oracle parameters (`extractIds`, `hashFn`): both are fixed deterministic
functions for a given process, and no claim depends on their internals.
External dispatch (`jira`/`servicenow` calls) is an oracle `δ` from the
dispatch request to an opaque response; the engine records every issued
request in its result so that "external calls" can be counted. -/

/-- Keyword lists of the transcript agent. -/
def accessKeywords : List String :=
  ["access", "permission", "403", "401", "credentials", "vpn", "can\x27t clone",
   "forbidden", "blocked", "cannot access", "no access"]

def helpKeywords : List String :=
  ["help", "pair", "review", "can someone", "assist", "please help", "need help", "assign"]

def paceKeywords : List String :=
  ["later", "not a priority", "will do later", "busy", "lack of time",
   "taking too long", "slow", "delay", "behind schedule",
   "haven\x27t made progress", "no progress"]

/-- `contains_any`: `False` on empty text, else any lowercased keyword is a
substring of the lowercased text. -/
def containsAny (text : String) (keywords : List String) : Bool :=
  if text.isEmpty then false
  else keywords.any (fun k => substrB k.toLower text.toLower)

/-- Python `a or b` on optionals where `""` is falsy. -/
def orElseStr (a b : Option String) : Option String :=
  match a with
  | some s => if s.isEmpty then b else some s
  | none => b

/-- One utterance entry of the timeline (`_merge_person_texts`). -/
structure TEvent where
  date : Option String := none
  name : Option String := none
  email : Option String := none
  text : String := ""
  jiras : List String := []
  access : Bool := false
  help : Bool := false
  pace : Bool := false
deriving Repr, DecidableEq

/-- A timeline key: `(speaker email-or-name, ticket reference or none)`. -/
abbrev TKey := Option String × Option String

/-- The timeline: an insertion-ordered dictionary from keys to event
lists, as built by `timeline.setdefault(key, []).append(entry)`. -/
abbrev Timeline := List (TKey × List TEvent)

/-- `setdefault(key, []).append(entry)` on the insertion-ordered dict. -/
def tlAppend (tl : Timeline) (k : TKey) (e : TEvent) : Timeline :=
  if tl.any (fun kv => kv.fst = k) then
    tl.map (fun kv => if kv.fst = k then (kv.fst, kv.snd ++ [e]) else kv)
  else tl ++ [(k, [e])]

/-- One participant of one transcript day. -/
structure Participant where
  email : Option String := none
  name : Option String := none
  spoken_text : List String := []
deriving Repr, DecidableEq

/-- One day of transcripts. -/
structure TDay where
  date : Option String := none
  participants : List Participant := []
deriving Repr, DecidableEq

/-- `_merge_person_texts`: group every utterance under
`(email-or-name, jira-id)` for each extracted id, or under
`(email-or-name, none)` when no id was found. -/
def mergePersonTexts (extractIds : String → List String) (transcripts : List TDay) :
    Timeline :=
  transcripts.foldl (fun tl day =>
    day.participants.foldl (fun tl p =>
      p.spoken_text.foldl (fun tl txt =>
        let em := orElseStr p.email p.name
        let jiras := extractIds txt
        let e : TEvent :=
          { date := day.date, name := p.name, email := em, text := txt, jiras := jiras,
            access := containsAny txt accessKeywords,
            help := containsAny txt helpKeywords,
            pace := containsAny txt paceKeywords }
        if jiras.isEmpty then tlAppend tl (em, none) e
        else jiras.foldl (fun tl jid => tlAppend tl (em, some jid) e) tl)
        tl)
      tl)
    []

/-- `make_action_key` with Python's `abs(hash(...))` as the oracle
`hashFn`: the key is a function of exactly
`(person, story or "NO_STORY", diagnosis, excerpt[:200])`. -/
def makeActionKey (hashFn : String → Nat) (person : String) (story : Option String)
    (diagnosis : String) (excerpt : String) : String :=
  toString (hashFn
    (person ++ "||" ++ ((orElseStr story (some "NO_STORY")).getD "NO_STORY") ++ "||" ++
      diagnosis ++ "||" ++ excerpt.take 200))

/-- The payload snapshot recorded for a dispatch decision. -/
structure DPayload where
  person : Option String
  story : Option String
  excerpt : String
  confidence : ℚ
deriving Repr, DecidableEq

/-- Which external system a dispatch goes to: ServiceNow incident
(diagnosis `access`) or Jira helper story (all other diagnoses). -/
inductive DispatchKind
  | incident
  | helper
deriving Repr, DecidableEq

/-- One external dispatch request. -/
structure DispatchCall where
  kind : DispatchKind
  payload : DPayload
deriving Repr, DecidableEq

/-- The persisted idempotency row (`TranscriptAction`).  The response
snapshot is kept opaque. -/
structure ActionRecord where
  action_key : String
  person : Option String := none
  story : Option String := none
  diagnosis : String := ""
  confidence : Option ℚ := none
  payload : DPayload
  response : String
deriving Repr, DecidableEq

/-- `x or None` for optional strings. -/
def normalizeOpt (o : Option String) : Option String :=
  match o with
  | some s => if s.isEmpty then none else some s
  | none => none

/-- `action_exists`. -/
def actionExists (db : List ActionRecord) (key : String) : Bool :=
  db.any (fun r => r.action_key = key)

/-- `persist_action` (get-or-create; within `process` the create branch is
the only one reachable because `action_exists` was checked just before). -/
def persistAction (db : List ActionRecord) (r : ActionRecord) : List ActionRecord :=
  if actionExists db r.action_key then
    db.map (fun o =>
      if o.action_key = r.action_key then
        { o with
            person := if (normalizeOpt r.person).isSome then r.person else o.person,
            story := if (normalizeOpt r.story).isSome then r.story else o.story,
            diagnosis := if r.diagnosis.isEmpty then o.diagnosis else r.diagnosis,
            confidence := if r.confidence.isSome then r.confidence else o.confidence,
            payload := r.payload,
            response := r.response }
      else o)
  else db ++ [r]

/-- Confidence score of one timeline entry (`process`, lines 336-345):
`1.2·[ticket] + 1.0·[access] + 0.9·[help] + 0.7·[pace] + 0.2·(mentions−1)`. -/
def entryScore (story : Option String) (events : List TEvent) : ℚ :=
  let s0 : ℚ := 0
  let s1 := if story.isSome then s0 + 6/5 else s0
  let s2 := if events.any (fun e => e.access) then s1 + 1 else s1
  let s3 := if events.any (fun e => e.help) then s2 + 9/10 else s2
  let s4 := if events.any (fun e => e.pace) then s3 + 7/10 else s3
  s4 + (1/5) * ((events.length : ℚ) - 1)

/-- `confidence = min(score / 3.0, 1.0)`. -/
def entryConfidence (story : Option String) (events : List TEvent) : ℚ :=
  min (entryScore story events / 3) 1

/-- Diagnosis cascade (`process`, lines 349-358). -/
def entryDiagnosis (story : Option String) (events : List TEvent) : String :=
  let conf := entryConfidence story events
  if events.any (fun e => e.access) && decide (3/10 ≤ conf) then "access"
  else if events.any (fun e => e.help) && decide (3/10 ≤ conf) then "needs_help"
  else if events.any (fun e => e.pace) && decide (7/10 ≤ conf) then "pace"
  else "verify"

/-- `excerpt = events[-1]["text"][:800]` (timeline entries built by
`_merge_person_texts` are never empty; `""` stands for the unreachable
empty case). -/
def excerptOf (events : List TEvent) : String :=
  ((events.getLast?).map (fun e => e.text.take 800)).getD ""

/-- The idempotency key computed for a timeline entry. -/
def entryKey (hashFn : String → Nat) (k : TKey) (events : List TEvent) : String :=
  makeActionKey hashFn (k.fst.getD "") k.snd (entryDiagnosis k.snd events)
    (excerptOf events)

/-- One decision row appended by `process`. -/
structure TDecision where
  person : Option String
  story : Option String
  diagnosis : String
  confidence : ℚ
  excerpt : String
  action_key : String
  result : String
deriving Repr, DecidableEq

/-- Processing of one timeline entry: skip (no dispatch, no record) when
the key already exists, otherwise dispatch according to the diagnosis and
persist an `ActionRecord` with the outcome. -/
def processEntry (hashFn : String → Nat) (δ : DispatchCall → String)
    (db : List ActionRecord) (k : TKey) (events : List TEvent) :
    List ActionRecord × Option (TDecision × DispatchCall) :=
  let excerpt := excerptOf events
  let conf := entryConfidence k.snd events
  let diag := entryDiagnosis k.snd events
  let key := entryKey hashFn k events
  if actionExists db key then (db, none)
  else
    let payload : DPayload :=
      { person := k.fst, story := k.snd, excerpt := excerpt, confidence := conf }
    let call : DispatchCall :=
      { kind := if diag = "access" then .incident else .helper, payload := payload }
    let res := δ call
    let r : ActionRecord :=
      { action_key := key, person := normalizeOpt k.fst, story := normalizeOpt k.snd,
        diagnosis := diag, confidence := some conf, payload := payload, response := res }
    (persistAction db r,
     some ({ person := k.fst, story := k.snd, diagnosis := diag, confidence := conf,
             excerpt := excerpt, action_key := key, result := res }, call))

/-- `TranscriptAgent.process` over an already-built timeline: thread the
action store through the entries in order, collecting decisions and the
external calls actually issued. -/
def processTimeline (hashFn : String → Nat) (δ : DispatchCall → String) :
    Timeline → List ActionRecord →
    List ActionRecord × List TDecision × List DispatchCall
  | [], db => (db, [], [])
  | kv :: tl, db =>
    match processEntry hashFn δ db kv.fst kv.snd with
    | (db', none) => processTimeline hashFn δ tl db'
    | (db', some dc) =>
      let rest := processTimeline hashFn δ tl db'
      (rest.1, dc.1 :: rest.2.1, dc.2 :: rest.2.2)

/-- The full triage engine: build the timeline from the transcript input,
then process it. -/
def transcriptProcess (hashFn : String → Nat) (extractIds : String → List String)
    (δ : DispatchCall → String) (transcripts : List TDay) (db : List ActionRecord) :
    List ActionRecord × List TDecision × List DispatchCall :=
  processTimeline hashFn δ (mergePersonTexts extractIds transcripts) db

/-! ## Theorems -/

/-- Transitivity of the prioritization comparator. -/
theorem priorityLe_trans (a b c : AStory)
    (hab : decide (priorityScore b ≤ priorityScore a) = true)
    (hbc : decide (priorityScore c ≤ priorityScore b) = true) :
    decide (priorityScore c ≤ priorityScore a) = true := by
  simp only [decide_eq_true_eq] at hab hbc ⊢
  exact le_trans hbc hab

/-- Totality of the prioritization comparator. -/
theorem priorityLe_total (a b : AStory) :
    (decide (priorityScore b ≤ priorityScore a)
      || decide (priorityScore a ≤ priorityScore b)) = true := by
  simp only [Bool.or_eq_true, decide_eq_true_eq]
  exact le_total _ _

/-- C6: `_prioritize_stories` permutes the input, orders it by
non-increasing priority score
(`priority_weight·100 − 10·[deps] − 0.5·points`), and is stable: any
correctly-ordered pair of the input — in particular any equal-score pair
— stays in its original relative order. -/
theorem prioritize_sorted_stable (stories : List AStory) :
    List.Perm (prioritizeStories stories) stories
    ∧ (prioritizeStories stories).Pairwise
        (fun a b => priorityScore b ≤ priorityScore a)
    ∧ (∀ a b : AStory, priorityScore b ≤ priorityScore a →
        List.Sublist [a, b] stories →
        List.Sublist [a, b] (prioritizeStories stories)) := by
  refine ⟨List.mergeSort_perm stories _, ?_, ?_⟩
  · have h := List.sorted_mergeSort priorityLe_trans priorityLe_total stories
    exact h.imp (fun hab => by simpa using hab)
  · intro a b hle hsub
    exact List.sublist_mergeSort priorityLe_trans priorityLe_total
      (List.pairwise_pair.mpr (by simpa using hle)) hsub

/-- C6 witness. -/
theorem prioritize_sorted_stable_witness :
    List.Sublist [({ title := "a" } : AStory), { title := "b" }]
      (prioritizeStories [{ title := "a" }, { title := "b" }]) :=
  (prioritize_sorted_stable [{ title := "a" }, { title := "b" }]).2.2
    { title := "a" } { title := "b" } (le_refl _) (List.Sublist.refl _)

/-- `updAt` preserves the roster's length. -/
theorem updAt_length (l : List Member) (i : Nat) (f : Member → Member) :
    (updAt l i f).length = l.length := by
  induction l generalizing i with
  | nil => rfl
  | cons m rest ih =>
    cases i with
    | zero => rfl
    | succ i => simpa [updAt] using ih i

/-- When no roster member is eligible, the selection loop keeps its
accumulator. -/
theorem findBestGo_all_ineligible (required : List String) (pts : ℚ) :
    ∀ (team : List Member) (i : Nat) (acc : Option (Nat × ℚ)),
    (∀ x ∈ team, eligibleB x pts = false) →
    findBestGo required pts team i acc = acc := by
  intro team
  induction team with
  | nil => intro i acc _; rfl
  | cons m rest ih =>
    intro i acc h
    unfold findBestGo
    rw [if_neg (by simp [h m (List.mem_cons_self m rest)])]
    exact ih (i + 1) acc (fun x hx => h x (List.mem_cons_of_mem m hx))

/-- When no roster member is eligible, `_find_best_assignee` finds none. -/
theorem findBestAssignee_all_ineligible (team : List Member) (required : List String)
    (pts : ℚ) (h : ∀ x ∈ team, eligibleB x pts = false) :
    findBestAssignee team required pts = none :=
  findBestGo_all_ineligible required pts team 0 none h

/-- The fallback index selection: the minimum-tracking loop returns
either the seed or a strictly better element of the rest, minimal over
the rest either way. -/
theorem argminLoadGo_spec : ∀ (rest : List Member) (i bi : Nat) (bv : ℚ),
    (argminLoadGo rest i bi bv = bi ∧ ∀ x ∈ rest, bv ≤ x.current_load)
    ∨ (∃ j, ∃ hj : j < rest.length, argminLoadGo rest i bi bv = i + j
        ∧ (rest.get ⟨j, hj⟩).current_load < bv
        ∧ ∀ x ∈ rest, (rest.get ⟨j, hj⟩).current_load ≤ x.current_load) := by
  intro rest
  induction rest with
  | nil => intro i bi bv; exact Or.inl ⟨rfl, by simp⟩
  | cons m rest ih =>
    intro i bi bv
    by_cases hlt : m.current_load < bv
    · rw [show argminLoadGo (m :: rest) i bi bv
          = argminLoadGo rest (i + 1) i m.current_load from by
        simp only [argminLoadGo]
        rw [if_pos hlt]]
      rcases ih (i + 1) i m.current_load with ⟨heq, hall⟩ | ⟨j, hj, heq, hlt', hall⟩
      · refine Or.inr ⟨0, by simp, by simpa using heq, hlt, ?_⟩
        intro x hx
        rcases List.mem_cons.mp hx with rfl | hx'
        · exact le_refl _
        · exact hall x hx'
      · refine Or.inr ⟨j + 1, by simp only [List.length_cons]; omega,
          by rw [heq]; omega, ?_, ?_⟩
        · exact lt_trans hlt' hlt
        · intro x hx
          rcases List.mem_cons.mp hx with rfl | hx'
          · exact le_of_lt hlt'
          · exact hall x hx'
    · rw [show argminLoadGo (m :: rest) i bi bv
          = argminLoadGo rest (i + 1) bi bv from by
        simp only [argminLoadGo]
        rw [if_neg hlt]]
      rcases ih (i + 1) bi bv with ⟨heq, hall⟩ | ⟨j, hj, heq, hlt', hall⟩
      · refine Or.inl ⟨heq, ?_⟩
        intro x hx
        rcases List.mem_cons.mp hx with rfl | hx'
        · exact le_of_not_lt hlt
        · exact hall x hx'
      · refine Or.inr ⟨j + 1, by simp only [List.length_cons]; omega,
          by rw [heq]; omega, hlt', ?_⟩
        intro x hx
        rcases List.mem_cons.mp hx with rfl | hx'
        · exact le_trans (le_of_lt hlt') (le_of_not_lt hlt)
        · exact hall x hx'

/-- On a non-empty roster the fallback picks an index of globally minimal
current load. -/
theorem argminLoad_spec (team : List Member) (hne : team ≠ []) :
    ∃ fi, ∃ h : fi < team.length, argminLoad team = some fi
      ∧ ∀ x ∈ team, (team.get ⟨fi, h⟩).current_load ≤ x.current_load := by
  cases team with
  | nil => exact absurd rfl hne
  | cons m rest =>
    rcases argminLoadGo_spec rest 1 0 m.current_load with ⟨heq, hall⟩ | ⟨j, hj, heq, hlt, hall⟩
    · refine ⟨0, by simp, ?_, ?_⟩
      · simp [argminLoad, heq]
      · intro x hx
        rcases List.mem_cons.mp hx with rfl | hx'
        · exact le_refl _
        · exact hall x hx'
    · refine ⟨1 + j, by simpa using by omega, ?_, ?_⟩
      · simp [argminLoad, heq]
      · intro x hx
        have hget : (m :: rest).get ⟨1 + j, by simpa using by omega⟩ = rest.get ⟨j, hj⟩ := by
          have h1j : 1 + j = j + 1 := by omega
          simp [h1j]
        rw [hget]
        rcases List.mem_cons.mp hx with rfl | hx'
        · exact le_of_lt hlt
        · exact hall x hx'

/-- `persist_action` never removes a key from the store. -/
theorem actionExists_persistAction (db : List ActionRecord) (r : ActionRecord)
    (key : String) (h : actionExists db key = true) :
    actionExists (persistAction db r) key = true := by
  unfold persistAction
  split
  · simp only [actionExists, List.any_map, List.any_eq_true] at h ⊢
    obtain ⟨o, ho, hkey⟩ := h
    refine ⟨o, ho, ?_⟩
    simp only [Function.comp]
    split <;> simpa using hkey
  · simp only [actionExists, List.any_append, Bool.or_eq_true]
    exact Or.inl h

/-- After `persist_action` the record's key is present. -/
theorem actionExists_persistAction_self (db : List ActionRecord) (r : ActionRecord) :
    actionExists (persistAction db r) r.action_key = true := by
  unfold persistAction
  split
  · next hex =>
    simp only [actionExists, List.any_map, List.any_eq_true] at hex ⊢
    obtain ⟨o, ho, hkey⟩ := hex
    refine ⟨o, ho, ?_⟩
    simp only [Function.comp]
    split <;> simpa using hkey
  · simp [actionExists]

/-- An entry whose key is already stored is skipped: no dispatch, no new
record. -/
theorem processEntry_skip (hashFn : String → Nat) (δ : DispatchCall → String)
    (db : List ActionRecord) (k : TKey) (events : List TEvent)
    (h : actionExists db (entryKey hashFn k events) = true) :
    processEntry hashFn δ db k events = (db, none) := by
  simp [processEntry, h]

/-- Processing one entry never removes a key from the store. -/
theorem processEntry_mono (hashFn : String → Nat) (δ : DispatchCall → String)
    (db : List ActionRecord) (k : TKey) (events : List TEvent) (key : String)
    (h : actionExists db key = true) :
    actionExists (processEntry hashFn δ db k events).1 key = true := by
  by_cases hex : actionExists db (entryKey hashFn k events) = true
  · rw [processEntry_skip hashFn δ db k events hex]
    exact h
  · simp only [processEntry, hex, if_false]
    exact actionExists_persistAction _ _ _ h

/-- After processing an entry its idempotency key is in the store. -/
theorem processEntry_key (hashFn : String → Nat) (δ : DispatchCall → String)
    (db : List ActionRecord) (k : TKey) (events : List TEvent) :
    actionExists (processEntry hashFn δ db k events).1 (entryKey hashFn k events) = true := by
  by_cases hex : actionExists db (entryKey hashFn k events) = true
  · rw [processEntry_skip hashFn δ db k events hex]
    exact hex
  · simp only [processEntry, hex, if_false]
    exact actionExists_persistAction_self _ _

/-- `process` never removes a key from the store. -/
theorem processTimeline_mono (hashFn : String → Nat) (δ : DispatchCall → String)
    (tl : Timeline) : ∀ (db : List ActionRecord) (key : String),
    actionExists db key = true →
    actionExists (processTimeline hashFn δ tl db).1 key = true := by
  induction tl with
  | nil => intro db key h; exact h
  | cons kv tl ih =>
    intro db key h
    have hmono := processEntry_mono hashFn δ db kv.fst kv.snd key h
    unfold processTimeline
    cases hpe : processEntry hashFn δ db kv.fst kv.snd with
    | mk db' dec =>
      rw [hpe] at hmono
      cases dec with
      | none => exact ih db' key hmono
      | some dc => exact ih db' key hmono

/-- After a full `process` run, every timeline entry's key is stored. -/
theorem processTimeline_keys (hashFn : String → Nat) (δ : DispatchCall → String)
    (tl : Timeline) : ∀ (db : List ActionRecord) (kv : TKey × List TEvent),
    kv ∈ tl →
    actionExists (processTimeline hashFn δ tl db).1 (entryKey hashFn kv.fst kv.snd) = true := by
  induction tl with
  | nil => intro db kv hmem; cases hmem
  | cons kv0 tl ih =>
    intro db kv hmem
    unfold processTimeline
    rcases List.mem_cons.mp hmem with heq | hmem'
    · subst heq
      have hkey := processEntry_key hashFn δ db kv.fst kv.snd
      cases hpe : processEntry hashFn δ db kv.fst kv.snd with
      | mk db' dec =>
        rw [hpe] at hkey
        cases dec with
        | none => exact processTimeline_mono hashFn δ tl db' _ hkey
        | some dc => exact processTimeline_mono hashFn δ tl db' _ hkey
    · cases hpe : processEntry hashFn δ db kv0.fst kv0.snd with
      | mk db' dec =>
        cases dec with
        | none => exact ih db' kv hmem'
        | some dc => exact ih db' kv hmem'

/-- A run over a timeline all of whose keys are already stored is a no-op:
store unchanged, no decisions, no external calls. -/
theorem processTimeline_all_skip (hashFn : String → Nat) (δ : DispatchCall → String)
    (tl : Timeline) : ∀ (db : List ActionRecord),
    (∀ kv ∈ tl, actionExists db (entryKey hashFn kv.fst kv.snd) = true) →
    processTimeline hashFn δ tl db = (db, [], []) := by
  induction tl with
  | nil => intro db _; rfl
  | cons kv tl ih =>
    intro db h
    unfold processTimeline
    rw [processEntry_skip hashFn δ db kv.fst kv.snd (h kv (List.mem_cons_self kv tl))]
    exact ih db (fun kv' h' => h kv' (List.mem_cons_of_mem kv h'))

/-- C3: the action key depends only on
`(speaker, ticket-or-NO_STORY, diagnosis, excerpt[:200])`; an entry whose
key already has an `ActionRecord` is skipped with no dispatch and no new
record; and a second triage run over the identical transcript input
leaves the record set unchanged and issues zero external calls. -/
theorem triage_idempotent (hashFn : String → Nat) (extractIds : String → List String)
    (δ : DispatchCall → String) (transcripts : List TDay) (db0 : List ActionRecord) :
    (∀ person story diag e1 e2, e1.take 200 = e2.take 200 →
        makeActionKey hashFn person story diag e1 = makeActionKey hashFn person story diag e2)
    ∧ (∀ db k events, actionExists db (entryKey hashFn k events) = true →
        processEntry hashFn δ db k events = (db, none))
    ∧ transcriptProcess hashFn extractIds δ transcripts
        (transcriptProcess hashFn extractIds δ transcripts db0).1
      = ((transcriptProcess hashFn extractIds δ transcripts db0).1, [], []) := by
  refine ⟨?_, ?_, ?_⟩
  · intro person story diag e1 e2 h
    unfold makeActionKey
    rw [h]
  · intro db k events h
    exact processEntry_skip hashFn δ db k events h
  · unfold transcriptProcess
    exact processTimeline_all_skip hashFn δ _ _
      (fun kv hmem => processTimeline_keys hashFn δ _ db0 kv hmem)

/-- C3 witness. -/
theorem triage_idempotent_witness :
    transcriptProcess String.length (fun _ => []) (fun _ => "r")
        [{ participants := [{ name := some "p", spoken_text := ["need help"] }] }]
        (transcriptProcess String.length (fun _ => []) (fun _ => "r")
          [{ participants := [{ name := some "p", spoken_text := ["need help"] }] }] []).1
      = ((transcriptProcess String.length (fun _ => []) (fun _ => "r")
          [{ participants := [{ name := some "p", spoken_text := ["need help"] }] }] []).1,
         [], []) :=
  (triage_idempotent String.length (fun _ => []) (fun _ => "r")
    [{ participants := [{ name := some "p", spoken_text := ["need help"] }] }] []).2.2

/-- C7: per timeline entry, the confidence is
`min(score/3, 1)` for the weighted flag score, and the diagnosis is the
`access` / `needs_help` / `pace` / `verify` cascade with thresholds 0.3,
0.3, 0.7; undeduplicated entries carry exactly these values into the
emitted decision. -/
theorem triage_confidence_and_diagnosis (hashFn : String → Nat)
    (δ : DispatchCall → String) (db : List ActionRecord) (k : TKey)
    (events : List TEvent) :
    entryConfidence k.snd events
      = min (((if (k.snd).isSome then (6/5 : ℚ) else 0)
          + (if events.any (fun e => e.access) then 1 else 0)
          + (if events.any (fun e => e.help) then 9/10 else 0)
          + (if events.any (fun e => e.pace) then 7/10 else 0)
          + (1/5) * ((events.length : ℚ) - 1)) / 3) 1
    ∧ entryDiagnosis k.snd events
      = (if events.any (fun e => e.access) = true ∧ 3/10 ≤ entryConfidence k.snd events
          then "access"
         else if events.any (fun e => e.help) = true ∧ 3/10 ≤ entryConfidence k.snd events
          then "needs_help"
         else if events.any (fun e => e.pace) = true ∧ 7/10 ≤ entryConfidence k.snd events
          then "pace"
         else "verify")
    ∧ (actionExists db (entryKey hashFn k events) = false →
        ((processEntry hashFn δ db k events).2.map
            (fun dc => (dc.1.confidence, dc.1.diagnosis, dc.2.kind)))
          = some (entryConfidence k.snd events, entryDiagnosis k.snd events,
              if entryDiagnosis k.snd events = "access" then DispatchKind.incident
              else DispatchKind.helper)) := by
  refine ⟨?_, ?_, ?_⟩
  · have hscore : entryScore k.snd events
        = (if (k.snd).isSome then (6/5 : ℚ) else 0)
            + (if events.any (fun e => e.access) then 1 else 0)
            + (if events.any (fun e => e.help) then 9/10 else 0)
            + (if events.any (fun e => e.pace) then 7/10 else 0)
            + (1/5) * ((events.length : ℚ) - 1) := by
      unfold entryScore
      by_cases h1 : (k.snd).isSome <;>
        by_cases h2 : events.any (fun e => e.access) = true <;>
          by_cases h3 : events.any (fun e => e.help) = true <;>
            by_cases h4 : events.any (fun e => e.pace) = true <;>
              simp [h1, h2, h3, h4]
    unfold entryConfidence
    rw [hscore]
  · unfold entryDiagnosis
    by_cases h2 : events.any (fun e => e.access) = true <;>
      by_cases h3 : events.any (fun e => e.help) = true <;>
        by_cases h4 : events.any (fun e => e.pace) = true <;>
          by_cases hc3 : (3/10 : ℚ) ≤ entryConfidence k.snd events <;>
            by_cases hc7 : (7/10 : ℚ) ≤ entryConfidence k.snd events <;>
              simp [h2, h3, h4, hc3, hc7]
  · intro h
    unfold processEntry
    rw [if_neg (by simp [h])]
    rfl

/-- C7 witness. -/
theorem triage_confidence_and_diagnosis_witness :
    entryConfidence (some "ABC-1") [{ text := "t", access := true }]
      = min (((if (some "ABC-1").isSome then (6/5 : ℚ) else 0)
          + (if [({ text := "t", access := true } : TEvent)].any (fun e => e.access) then 1 else 0)
          + (if [({ text := "t", access := true } : TEvent)].any (fun e => e.help) then 9/10 else 0)
          + (if [({ text := "t", access := true } : TEvent)].any (fun e => e.pace) then 7/10 else 0)
          + (1/5) * (([({ text := "t", access := true } : TEvent)].length : ℚ) - 1)) / 3) 1 :=
  (triage_confidence_and_diagnosis String.length (fun _ => "r") []
    (some "ABC-1", some "ABC-1") [{ text := "t", access := true }]).1

/-- Raw story-point totals differ from defaulted totals by 3 per missing
`story_points` field. -/
theorem sum_points_default (l : List RawStory) :
    (l.map (fun s => s.story_points.getD 3)).sum
      = (l.map (fun s => s.story_points.getD 0)).sum
        + 3 * ((l.filter (fun s => s.story_points.isNone)).length : Int) := by
  induction l with
  | nil => simp
  | cons s rest ih =>
    cases h : s.story_points with
    | none => simp [h, ih]; ring
    | some v => simp [h, ih]; ring

/-- The formatted stories' point values are the raw values defaulted to 3. -/
theorem formatted_points_map (l : List RawStory) :
    ((l.enum.map fun p => formatStory p.1 p.2).map fun f => f.story_points)
      = l.map (fun s => s.story_points.getD 3) := by
  rw [List.map_map]
  have h2 : l.map (fun s => s.story_points.getD 3)
      = (l.enum.map Prod.snd).map (fun s => s.story_points.getD 3) := by
    rw [List.enum_map_snd]
  rw [h2, List.map_map]
  rfl

/-- C10: `execute` formats one story per raw response story, in order,
with a 1-based `order` index and defaults 3 / "medium", while
`total_story_points` totals the raw values with missing points as 0; the
two totals agree exactly when every raw story carries `story_points`. -/
theorem storyGen_format_and_total (generate_epic : Bool) (resp : StoryGenResponse) :
    (executeStoryGen generate_epic resp).stories.length = (resp.stories.getD []).length
    ∧ (∀ i, (hi : i < (resp.stories.getD []).length) →
        (hi2 : i < (executeStoryGen generate_epic resp).stories.length) →
        (executeStoryGen generate_epic resp).stories[i]
          = formatStory i (resp.stories.getD [])[i]
        ∧ (executeStoryGen generate_epic resp).stories[i].order = i + 1
        ∧ (executeStoryGen generate_epic resp).stories[i].story_points
            = ((resp.stories.getD [])[i].story_points).getD 3
        ∧ (executeStoryGen generate_epic resp).stories[i].priority
            = ((resp.stories.getD [])[i].priority).getD "medium")
    ∧ (executeStoryGen generate_epic resp).total_story_points
        = ((resp.stories.getD []).map (fun s => s.story_points.getD 0)).sum
    ∧ ((executeStoryGen generate_epic resp).total_story_points
        = ((executeStoryGen generate_epic resp).stories.map (fun f => f.story_points)).sum
        ↔ ∀ s ∈ resp.stories.getD [], s.story_points.isSome) := by
  set raw := resp.stories.getD [] with hraw
  have hstories : (executeStoryGen generate_epic resp).stories
      = raw.enum.map fun p => formatStory p.1 p.2 := rfl
  have htot : (executeStoryGen generate_epic resp).total_story_points
      = (raw.map (fun s => s.story_points.getD 0)).sum := rfl
  refine ⟨by simp [hstories], ?_, htot, ?_⟩
  · intro i hi hi2
    have hget : (executeStoryGen generate_epic resp).stories[i] = formatStory i raw[i] := by
      simp [hstories]
    exact ⟨hget, by simp [hget, formatStory], by simp [hget, formatStory],
      by simp [hget, formatStory]⟩
  · rw [htot, hstories, formatted_points_map, sum_points_default]
    constructor
    · intro h s hs
      have h3 : 3 * ((raw.filter (fun s => s.story_points.isNone)).length : Int) = 0 := by
        omega
      have hlen : (raw.filter (fun s => s.story_points.isNone)).length = 0 := by omega
      have hnil : raw.filter (fun s => s.story_points.isNone) = [] :=
        List.length_eq_zero.mp hlen
      by_contra hnone
      have : s ∈ raw.filter (fun s => s.story_points.isNone) := by
        refine List.mem_filter.mpr ⟨hs, ?_⟩
        simp [Option.isNone_iff_eq_none]
        exact Option.not_isSome_iff_eq_none.mp hnone
      simp [hnil] at this
    · intro h
      have hnil : raw.filter (fun s => s.story_points.isNone) = [] := by
        rw [List.filter_eq_nil_iff]
        intro s hs
        have := h s hs
        simp [Option.isNone_iff_eq_none]
        exact Option.isSome_iff_ne_none.mp this
      simp [hnil]

/-- C10 witness. -/
theorem storyGen_format_and_total_witness :
    (executeStoryGen true { stories := some [{ story_points := some 5 }, {}] }).stories.length = 2
    ∧ ((executeStoryGen true { stories := some [{ story_points := some 5 }, {}] }).total_story_points
        = ((executeStoryGen true { stories := some [{ story_points := some 5 }, {}] }).stories.map
            (fun f => f.story_points)).sum
        ↔ ∀ s ∈ [({ story_points := some 5 } : RawStory), {}], s.story_points.isSome) := by
  have h := storyGen_format_and_total true { stories := some [{ story_points := some 5 }, {}] }
  exact ⟨h.1, h.2.2.2⟩

/-- C8: `generate_from_feature_id` accepts a complete stored context
unchanged; it succeeds exactly when the context is complete, or has a
non-empty nested `context_summary` block, or already carries all six
required keys; in every other case it fails with the incomplete-context
error and generates no stories. -/
theorem storyGen_precondition (c : FeatureContext) (ttl : Nat) :
    (c.is_complete = true → generateFromFeatureId (some (c, ttl)) = .ok c)
    ∧ ((∃ c', generateFromFeatureId (some (c, ttl)) = .ok c') ↔
        (c.is_complete = true ∨ pyTruthySummary c.context_summary = true ∨
         requiredKeys.all (fun k => ctxHasKey c k) = true))
    ∧ (c.is_complete = false → pyTruthySummary c.context_summary = false →
        requiredKeys.all (fun k => ctxHasKey c k) = false →
        generateFromFeatureId (some (c, ttl)) = .error .incompleteContext
        ∧ ∀ ge resp, generateStoriesFromStore (some (c, ttl)) ge resp
            = .error .incompleteContext) := by
  refine ⟨?_, ?_, ?_⟩
  · intro h
    simp [generateFromFeatureId, h]
  · constructor
    · rintro ⟨c', hc'⟩
      by_contra hcon
      push_neg at hcon
      obtain ⟨h1, h2, h3⟩ := hcon
      simp only [generateFromFeatureId] at hc'
      rw [if_neg h1, if_neg h2, if_neg h3] at hc'
      exact absurd hc' (by simp)
    · intro h
      rcases h with h | h | h
      · exact ⟨c, by simp [generateFromFeatureId, h]⟩
      · by_cases hic : c.is_complete = true
        · exact ⟨c, by simp [generateFromFeatureId, hic]⟩
        · refine ⟨{ c with
              merged := updateKeys c.merged (c.context_summary.getD []),
              is_complete := true }, ?_⟩
          simp only [generateFromFeatureId]
          rw [if_neg hic, if_pos h]
      · by_cases hic : c.is_complete = true
        · exact ⟨c, by simp [generateFromFeatureId, hic]⟩
        · by_cases hts : pyTruthySummary c.context_summary = true
          · refine ⟨{ c with
                merged := updateKeys c.merged (c.context_summary.getD []),
                is_complete := true }, ?_⟩
            simp only [generateFromFeatureId]
            rw [if_neg hic, if_pos hts]
          · refine ⟨{ c with is_complete := true }, ?_⟩
            simp only [generateFromFeatureId]
            rw [if_neg hic, if_neg hts, if_pos h]
  · intro h1 h2 h3
    have herr : generateFromFeatureId (some (c, ttl)) = .error .incompleteContext := by
      simp [generateFromFeatureId, h1, h2, h3]
    exact ⟨herr, fun ge resp => by simp [generateStoriesFromStore, herr]⟩

/-- Loop invariant of `_find_best_assignee` returning a candidate: the
result is either the untouched accumulator dominating every eligible
member, or the first eligible member attaining the (strictly
accumulator-beating) maximal score. -/
theorem findBestGo_some_spec (required : List String) (pts : ℚ) :
    ∀ (team : List Member) (i : Nat) (acc : Option (Nat × ℚ)) (k : Nat) (c : ℚ),
    findBestGo required pts team i acc = some (k, c) →
    (acc = some (k, c)
      ∧ ∀ j, ∀ hj : j < team.length, eligibleB (team.get ⟨j, hj⟩) pts = true →
          scoreOf (team.get ⟨j, hj⟩) required ≤ c)
    ∨ (∃ j, ∃ hj : j < team.length, k = i + j
        ∧ eligibleB (team.get ⟨j, hj⟩) pts = true
        ∧ c = scoreOf (team.get ⟨j, hj⟩) required
        ∧ ((acc.map Prod.snd).getD (-1)) < c
        ∧ (∀ j', ∀ hj' : j' < team.length, j' < j →
            eligibleB (team.get ⟨j', hj'⟩) pts = true →
            scoreOf (team.get ⟨j', hj'⟩) required < c)
        ∧ (∀ j', ∀ hj' : j' < team.length,
            eligibleB (team.get ⟨j', hj'⟩) pts = true →
            scoreOf (team.get ⟨j', hj'⟩) required ≤ c)) := by
  intro team
  induction team with
  | nil =>
    intro i acc k c h
    simp only [findBestGo] at h
    exact Or.inl ⟨h, fun j hj => absurd hj (by simp)⟩
  | cons m rest ih =>
    intro i acc k c h
    simp only [findBestGo] at h
    by_cases hcond : (eligibleB m pts
        && decide (((acc.map Prod.snd).getD (-1)) < scoreOf m required)) = true
    · rw [if_pos hcond] at h
      rw [Bool.and_eq_true] at hcond
      have helig : eligibleB m pts = true := hcond.1
      have hgt : ((acc.map Prod.snd).getD (-1)) < scoreOf m required :=
        of_decide_eq_true hcond.2
      rcases ih (i + 1) (some (i, scoreOf m required)) k c h with
        ⟨hacc, hall⟩ | ⟨j, hj, hk, helig', hc, hgt', htb, hub⟩
      · injection hacc with h1
        injection h1 with hki hcm
        refine Or.inr ⟨0, by simp, by omega, helig, hcm.symm, ?_, ?_, ?_⟩
        · rw [← hcm]
          exact hgt
        · intro j' hj' hlt'
          omega
        · intro j' hj' he
          cases j' with
          | zero => exact le_of_eq hcm
          | succ j'' => exact hall j'' (Nat.lt_of_succ_lt_succ hj') he
      · refine Or.inr ⟨j + 1, Nat.succ_lt_succ hj, by omega, helig', hc, ?_, ?_, ?_⟩
        · exact lt_trans hgt hgt'
        · intro j' hj' hlt' he
          cases j' with
          | zero => exact hgt'
          | succ j'' =>
            exact htb j'' (Nat.lt_of_succ_lt_succ hj') (Nat.lt_of_succ_lt_succ hlt') he
        · intro j' hj' he
          cases j' with
          | zero => exact le_of_lt hgt'
          | succ j'' => exact hub j'' (Nat.lt_of_succ_lt_succ hj') he
    · rw [if_neg hcond] at h
      have hle : eligibleB m pts = true →
          scoreOf m required ≤ ((acc.map Prod.snd).getD (-1)) := by
        intro he
        by_contra hgt
        exact hcond (by simp [he, decide_eq_true_eq, lt_of_not_le hgt])
      rcases ih (i + 1) acc k c h with
        ⟨hacc, hall⟩ | ⟨j, hj, hk, helig', hc, hgt', htb, hub⟩
      · refine Or.inl ⟨hacc, ?_⟩
        intro j' hj' he
        cases j' with
        | zero =>
          have h0 := hle he
          rw [hacc] at h0
          exact h0
        | succ j'' => exact hall j'' (Nat.lt_of_succ_lt_succ hj') he
      · refine Or.inr ⟨j + 1, Nat.succ_lt_succ hj, by omega, helig', hc, hgt', ?_, ?_⟩
        · intro j' hj' hlt' he
          cases j' with
          | zero => exact lt_of_le_of_lt (hle he) hgt'
          | succ j'' =>
            exact htb j'' (Nat.lt_of_succ_lt_succ hj') (Nat.lt_of_succ_lt_succ hlt') he
        · intro j' hj' he
          cases j' with
          | zero => exact le_of_lt (lt_of_le_of_lt (hle he) hgt')
          | succ j'' => exact hub j'' (Nat.lt_of_succ_lt_succ hj') he

/-- Loop invariant of `_find_best_assignee` finding no candidate: the
accumulator was empty and every eligible score is at most the initial
`best_score = -1`. -/
theorem findBestGo_none_spec (required : List String) (pts : ℚ) :
    ∀ (team : List Member) (i : Nat) (acc : Option (Nat × ℚ)),
    findBestGo required pts team i acc = none →
    acc = none ∧ ∀ j, ∀ hj : j < team.length,
      eligibleB (team.get ⟨j, hj⟩) pts = true →
        scoreOf (team.get ⟨j, hj⟩) required ≤ -1 := by
  intro team
  induction team with
  | nil =>
    intro i acc h
    simp only [findBestGo] at h
    exact ⟨h, fun j hj => absurd hj (by simp)⟩
  | cons m rest ih =>
    intro i acc h
    simp only [findBestGo] at h
    by_cases hcond : (eligibleB m pts
        && decide (((acc.map Prod.snd).getD (-1)) < scoreOf m required)) = true
    · rw [if_pos hcond] at h
      obtain ⟨hacc, -⟩ := ih (i + 1) (some (i, scoreOf m required)) h
      exact absurd hacc (by simp)
    · rw [if_neg hcond] at h
      have hle : eligibleB m pts = true →
          scoreOf m required ≤ ((acc.map Prod.snd).getD (-1)) := by
        intro he
        by_contra hgt
        exact hcond (by simp [he, decide_eq_true_eq, lt_of_not_le hgt])
      obtain ⟨hacc, hall⟩ := ih (i + 1) acc h
      refine ⟨hacc, ?_⟩
      intro j' hj' he
      cases j' with
      | zero =>
        have h0 := hle he
        rw [hacc] at h0
        exact h0
      | succ j'' => exact hall j'' (Nat.lt_of_succ_lt_succ hj') he

/-- `_find_best_assignee` with a result: the chosen member is eligible,
the confidence is their composite score, the score is maximal over
eligible members, and every earlier eligible member scores strictly
lower. -/
theorem findBestAssignee_some_spec (team : List Member) (required : List String)
    (pts : ℚ) (k : Nat) (c : ℚ)
    (h : findBestAssignee team required pts = some (k, c)) :
    ∃ hk : k < team.length,
      eligibleB (team.get ⟨k, hk⟩) pts = true
      ∧ c = scoreOf (team.get ⟨k, hk⟩) required
      ∧ (∀ j, ∀ hj : j < team.length, eligibleB (team.get ⟨j, hj⟩) pts = true →
          scoreOf (team.get ⟨j, hj⟩) required ≤ c)
      ∧ (∀ j, ∀ hj : j < team.length, j < k →
          eligibleB (team.get ⟨j, hj⟩) pts = true →
          scoreOf (team.get ⟨j, hj⟩) required < c) := by
  rcases findBestGo_some_spec required pts team 0 none k c h with
    ⟨hacc, -⟩ | ⟨j, hj, hk, helig, hc, -, htb, hub⟩
  · exact absurd hacc (by simp)
  · have hkj : k = j := by omega
    subst hkj
    exact ⟨hj, helig, hc, hub, htb⟩

/-- Every eligible member's composite score beats the initial `-1` when
story points are non-negative: each of the three summands is
non-negative and the experience term is at least `0.08`. -/
theorem scoreOf_gt_neg_one (m : Member) (required : List String) (pts : ℚ)
    (hpts : 0 ≤ pts) (he : eligibleB m pts = true) : -1 < scoreOf m required := by
  have hload : m.current_load + pts ≤ 5 := by
    simp only [eligibleB, Bool.and_eq_true, Bool.not_eq_true', decide_eq_false_iff_not,
      not_lt] at he
    exact he.1
  simp only [scoreOf]
  set rs := required.dedup with hrs
  have h1 : (0 : ℚ) ≤ (if rs.isEmpty then (1/2 : ℚ)
      else ((rs.filter (fun k => (memberSkills m).contains k)).length : ℚ) / (rs.length : ℚ)) := by
    split
    · norm_num
    · exact div_nonneg (Nat.cast_nonneg _) (Nat.cast_nonneg _)
  have h2 : (1 : ℚ) ≤ (if !rs.isEmpty && decide
      ((0 : ℚ) < ((rs.filter (fun k => (memberSkills m).contains k)).length : ℚ))
      then (2 : ℚ) else 1) := by
    split <;> norm_num
  have h3 : (0 : ℚ) ≤ 1 - m.current_load / 5 := by nlinarith
  have h4 : (4/5 : ℚ) ≤ (if m.experience_level = "junior" then (4/5 : ℚ)
      else if m.experience_level = "senior" then 6/5 else 1) := by
    split
    · norm_num
    · split <;> norm_num
  nlinarith [mul_nonneg (mul_nonneg h1 (le_trans zero_le_one h2)) (by norm_num : (0:ℚ) ≤ 3/5),
    mul_nonneg h3 (by norm_num : (0:ℚ) ≤ 3/10)]

/-- C5: a member is an eligible candidate for a story exactly when the
5-point hard cap and the effective-capacity check both pass; the engine
returns the eligible candidate of maximal composite score, breaking ties
in favour of the first-encountered one, with the score as confidence;
and (for non-negative story points) a candidate exists exactly when an
eligible member exists. -/
theorem assign_candidate_selection (team : List Member) (required : List String)
    (pts : ℚ) (m : Member) :
    ((m.current_load + pts ≤ 5 ∧ pts ≤ m.effective_capacity) ↔ eligibleB m pts = true)
    ∧ (∀ k c, findBestAssignee team required pts = some (k, c) →
        ∃ hk : k < team.length,
          eligibleB (team.get ⟨k, hk⟩) pts = true
          ∧ c = scoreOf (team.get ⟨k, hk⟩) required
          ∧ (∀ j, ∀ hj : j < team.length, eligibleB (team.get ⟨j, hj⟩) pts = true →
              scoreOf (team.get ⟨j, hj⟩) required ≤ c)
          ∧ (∀ j, ∀ hj : j < team.length, j < k →
              eligibleB (team.get ⟨j, hj⟩) pts = true →
              scoreOf (team.get ⟨j, hj⟩) required < c))
    ∧ (0 ≤ pts →
        ((∃ x ∈ team, eligibleB x pts = true) ↔
          (findBestAssignee team required pts).isSome = true)) := by
  refine ⟨?_, ?_, ?_⟩
  · simp [eligibleB, not_lt, and_comm]
  · intro k c h
    exact findBestAssignee_some_spec team required pts k c h
  · intro hpts
    constructor
    · intro hex
      obtain ⟨x, hx, he⟩ := hex
      cases hres : findBestAssignee team required pts with
      | none =>
        obtain ⟨-, hall⟩ := findBestGo_none_spec required pts team 0 none hres
        obtain ⟨n, hget⟩ := List.get_of_mem hx
        have hgt := scoreOf_gt_neg_one x required pts hpts he
        have hle := hall n.1 n.2 (by rw [show team.get ⟨n.1, n.2⟩ = x from hget]; exact he)
        rw [show team.get ⟨n.1, n.2⟩ = x from hget] at hle
        exact absurd hle (not_le.mpr hgt)
      | some kc => simp [hres]
    · intro hsome
      cases hres : findBestAssignee team required pts with
      | none => rw [hres] at hsome; cases hsome
      | some kc =>
        obtain ⟨hk, helig, -, -, -⟩ :=
          findBestAssignee_some_spec team required pts kc.1 kc.2 (by rw [hres])
        exact ⟨team.get ⟨kc.1, hk⟩, List.get_mem team kc.1 hk, helig⟩

/-- C5 witness. -/
theorem assign_candidate_selection_witness :
    (((2 : ℚ) + 2 ≤ 5 ∧ (2 : ℚ) ≤ 10) ↔
      eligibleB { name := "alice", current_load := 2, effective_capacity := 10 } 2 = true)
    ∧ (0 ≤ (2 : ℚ) →
        ((∃ x ∈ [({ name := "alice", current_load := 2, effective_capacity := 10 } : Member)],
            eligibleB x 2 = true) ↔
          (findBestAssignee [{ name := "alice", current_load := 2, effective_capacity := 10 }]
            ["qa"] 2).isSome = true)) := by
  have h := assign_candidate_selection
    [{ name := "alice", current_load := 2, effective_capacity := 10 }] ["qa"] 2
    { name := "alice", current_load := 2, effective_capacity := 10 }
  exact ⟨h.1, fun _ => h.2.2 (by norm_num)⟩

/-- One assignment step preserves the roster length. -/
theorem assignStep_length (idx : Nat) (team : List Member) (story : AStory) :
    (assignStep idx team story).1.length = team.length := by
  simp only [assignStep]
  split
  · simp [updAt_length]
  · split
    · rfl
    · simp [updAt_length]

/-- One assignment step records the story's title. -/
theorem assignStep_title (idx : Nat) (team : List Member) (story : AStory) :
    (assignStep idx team story).2.story_title = story.title := by
  simp only [assignStep]
  split
  · rfl
  · split <;> rfl

/-- On a non-empty roster every assignment step produces an assignee. -/
theorem assignStep_assignee (idx : Nat) (team : List Member) (story : AStory)
    (hne : team ≠ []) :
    ((assignStep idx team story).2.assignee).isSome = true := by
  simp only [assignStep]
  split
  · rfl
  · obtain ⟨fi, hfi, harg, -⟩ := argminLoad_spec team hne
    rw [harg]
    rfl

/-- The fallback branch of one assignment step: when no roster member is
eligible, the story goes to a member of globally minimal current load
with confidence 0.3. -/
theorem assignStep_fallback (idx : Nat) (team : List Member) (story : AStory)
    (hne : team ≠ [])
    (hinelig : ∀ x ∈ team, eligibleB x (story.story_points.getD 3) = false) :
    ∃ fi, ∃ h : fi < team.length,
      argminLoad team = some fi
      ∧ (assignStep idx team story).2.assignee = some ((team.get ⟨fi, h⟩).name)
      ∧ (assignStep idx team story).2.confidence = 3/10
      ∧ ∀ x ∈ team, (team.get ⟨fi, h⟩).current_load ≤ x.current_load := by
  obtain ⟨fi, hfi, harg, hmin⟩ := argminLoad_spec team hne
  have hnone := findBestAssignee_all_ineligible team
    (extractRequiredSkills story.title story.description)
    (story.story_points.getD 3) hinelig
  refine ⟨fi, hfi, harg, ?_, ?_, hmin⟩
  · simp only [assignStep]
    rw [hnone, harg]
    simp [List.getElem?_eq_getElem hfi]
  · simp only [assignStep]
    rw [hnone, harg]

/-- The assignment loop: one assignment per story in order, all carrying
an assignee on a non-empty roster. -/
theorem assignGo_spec : ∀ (stories : List AStory) (idx : Nat) (team : List Member),
    (assignGo idx stories team).1.length = stories.length
    ∧ (assignGo idx stories team).2.length = team.length
    ∧ ((assignGo idx stories team).1.map (fun a => a.story_title)
        = stories.map (fun s => s.title))
    ∧ (team ≠ [] → ∀ a ∈ (assignGo idx stories team).1, a.assignee.isSome = true) := by
  intro stories
  induction stories with
  | nil =>
    intro idx team
    exact ⟨rfl, rfl, rfl, fun _ a ha => absurd ha (by simp [assignGo])⟩
  | cons s rest ih =>
    intro idx team
    obtain ⟨ih1, ih2, ih3, ih4⟩ := ih (idx + 1) ((assignStep idx team s).1)
    have hunfold : assignGo idx (s :: rest) team
        = ((assignStep idx team s).2 :: (assignGo (idx + 1) rest (assignStep idx team s).1).1,
           (assignGo (idx + 1) rest (assignStep idx team s).1).2) := rfl
    rw [hunfold]
    refine ⟨by simp [ih1], by simpa [ih2] using assignStep_length idx team s,
      by simp [assignStep_title idx team s, ih3], ?_⟩
    intro hne a ha
    rcases List.mem_cons.mp ha with rfl | ha'
    · exact assignStep_assignee idx team s hne
    · refine ih4 ?_ a ha'
      intro h0
      apply hne
      have := assignStep_length idx team s
      rw [h0] at this
      exact List.length_eq_zero.mp this.symm

/-- C2: on a non-empty roster the assignment run yields exactly one
assignment per input story (the prioritized list is a permutation of the
input), every assignment carries an assignee, and any story for which no
member passes the hard-cap/capacity checks is assigned to a member of
globally minimal current load with confidence 0.3. -/
theorem assignment_coverage_and_fallback (stories : List AStory) (team : List Member)
    (hne : team ≠ []) :
    (assignmentEngine stories team).length = stories.length
    ∧ (∀ a ∈ assignmentEngine stories team, a.assignee.isSome = true)
    ∧ ((assignmentEngine stories team).map (fun a => a.story_title)
        = (prioritizeStories stories).map (fun s => s.title))
    ∧ List.Perm (prioritizeStories stories) stories
    ∧ (∀ (idx : Nat) (t : List Member) (story : AStory), t ≠ [] →
        (∀ x ∈ t, eligibleB x (story.story_points.getD 3) = false) →
        ∃ fi, ∃ h : fi < t.length,
          argminLoad t = some fi
          ∧ (assignStep idx t story).2.assignee = some ((t.get ⟨fi, h⟩).name)
          ∧ (assignStep idx t story).2.confidence = 3/10
          ∧ ∀ x ∈ t, (t.get ⟨fi, h⟩).current_load ≤ x.current_load) := by
  have hne2 : sortTeamByCapacity (team.map calcEffective) ≠ [] := by
    intro h0
    apply hne
    have hlen : (sortTeamByCapacity (team.map calcEffective)).length
        = (team.map calcEffective).length := List.length_mergeSort _
    rw [h0] at hlen
    have := List.length_eq_zero.mp hlen.symm
    simpa using List.map_eq_nil_iff.mp this
  obtain ⟨h1, -, h3, h4⟩ :=
    assignGo_spec (prioritizeStories stories) 0 (sortTeamByCapacity (team.map calcEffective))
  refine ⟨?_, ?_, h3, List.mergeSort_perm stories _, ?_⟩
  · rw [show assignmentEngine stories team
      = (assignGo 0 (prioritizeStories stories)
          (sortTeamByCapacity (team.map calcEffective))).1 from rfl]
    rw [h1]
    exact (List.mergeSort_perm stories _).length_eq
  · intro a ha
    exact h4 hne2 a ha
  · intro idx t story hne' hinelig
    exact assignStep_fallback idx t story hne' hinelig

/-- C2 witness (the saturated-roster scenario: one member at the 5-point
cap, a 3-point story still gets assigned by fallback). -/
theorem assignment_coverage_and_fallback_witness :
    (assignmentEngine [{ title := "w", story_points := some 3 }]
        [{ name := "x", current_load := 5, max_capacity := 5 }]).length = 1
    ∧ (∀ a ∈ assignmentEngine [{ title := "w", story_points := some 3 }]
        [{ name := "x", current_load := 5, max_capacity := 5 }],
        a.assignee.isSome = true) := by
  have h := assignment_coverage_and_fallback [{ title := "w", story_points := some 3 }]
    [{ name := "x", current_load := 5, max_capacity := 5 }] (by simp)
  exact ⟨h.1, h.2.1⟩

/-- Branch analysis of a successful `execute` call. -/
theorem executeClarify_cases (store : CtxStore) (inp : ClarifyInput)
    (omain : Except Unit ClarifyResponse) (osynth : Except Unit SynthResponse)
    (st' : CtxStore) (out : ClarifyOutput)
    (hok : executeClarify store inp omain osynth = .ok (st', out)) :
    (5 ≤ (storedCtx store).questions_asked
      ∧ (st', out) = forceCompletion (storedCtx store) inp.conversation_history osynth)
    ∨ ((storedCtx store).questions_asked < 5 ∧ inp.conversation_history.isEmpty = true
        ∧ ∃ r, omain = .ok r ∧ (st', out) = firstCall (storedCtx store) inp r)
    ∨ ((storedCtx store).questions_asked < 5 ∧ inp.conversation_history.isEmpty = false
        ∧ ∃ r, omain = .ok r ∧ (st', out) = continueCall (storedCtx store) inp r osynth) := by
  unfold executeClarify at hok
  by_cases h5 : 5 ≤ (storedCtx store).questions_asked
  · rw [if_pos h5] at hok
    injection hok with h
    exact Or.inl ⟨h5, h.symm⟩
  · rw [if_neg h5] at hok
    have hlt : (storedCtx store).questions_asked < 5 := by omega
    by_cases hemp : inp.conversation_history.isEmpty = true
    · rw [if_pos hemp] at hok
      cases omain with
      | error e => exact absurd hok (by simp)
      | ok r =>
        injection hok with h
        exact Or.inr (Or.inl ⟨hlt, hemp, r, rfl, h.symm⟩)
    · rw [if_neg hemp] at hok
      cases omain with
      | error e => exact absurd hok (by simp)
      | ok r =>
        injection hok with h
        exact Or.inr (Or.inr ⟨hlt, Bool.not_eq_true _ ▸ hemp, r, rfl, h.symm⟩)

/-- Unfolding equation for `_force_completion`. -/
theorem forceCompletion_eq (ctx : FeatureContext) (hist : List Msg)
    (osynth : Except Unit SynthResponse) :
    forceCompletion ctx hist osynth =
      (some ({ ctx with
          merged := updateKeys ctx.merged (forcedSummary ctx hist osynth),
          context_summary := some (forcedSummary ctx hist osynth),
          is_complete := true, forced_completion := true }, 3600),
       { question := none, is_complete := true,
         context_summary := some (forcedSummary ctx hist osynth),
         conversation_history := hist, forced_completion := true }) := rfl

/-- The minimal default summary carries all six required keys. -/
theorem defaultSummary_hasAllKeys (ctx : FeatureContext) :
    hasAllKeys (defaultSummary ctx) = true := by
  simp [hasAllKeys, requiredKeys, defaultSummary]

/-- A truthy optional summary is a non-empty `some`. -/
theorem pyTruthySummary_getD (o : Option Summary) (h : pyTruthySummary o = true) :
    ∃ s, o = some s ∧ s.isEmpty = false := by
  cases o with
  | none => simp [pyTruthySummary] at h
  | some s =>
    simp only [pyTruthySummary, Bool.not_eq_true'] at h
    exact ⟨s, rfl, h⟩

/-- The forced summary is never the empty document. -/
theorem forcedSummary_ne_empty (ctx : FeatureContext) (hist : List Msg)
    (osynth : Except Unit SynthResponse) :
    (forcedSummary ctx hist osynth).isEmpty = false := by
  unfold forcedSummary
  by_cases h : pyTruthySummary (genContextSummary hist osynth) = true
  · rw [if_pos h]
    obtain ⟨s, hs, hne⟩ := pyTruthySummary_getD _ h
    simp [hs, hne]
  · rw [if_neg h]
    simp [defaultSummary]

/-- The continuing-branch context update always bumps the counter by 1. -/
theorem continueCtx_counter (ctx : FeatureContext) (isC : Bool) (sum : Option Summary) :
    (continueCtx ctx isC sum).questions_asked = ctx.questions_asked + 1 := by
  unfold continueCtx
  split <;> rfl

/-- The continuing-branch context is complete only with a stored
non-empty summary. -/
theorem continueCtx_complete (ctx : FeatureContext) (isC : Bool) (sum : Option Summary) :
    (continueCtx ctx isC sum).is_complete = true →
      ∃ s, (continueCtx ctx isC sum).context_summary = some s ∧ s.isEmpty = false := by
  unfold continueCtx
  split
  · next h =>
    intro _
    rw [Bool.and_eq_true] at h
    obtain ⟨s, hs, hne⟩ := pyTruthySummary_getD _ h.2
    exact ⟨sum.getD [], rfl, by simp [hs, hne]⟩
  · intro h
    simp at h

/-- Persisted-context shape of the continuing branch: counter bumped by
one, and completion implies a stored non-empty summary. -/
theorem continueCall_fst (ctx : FeatureContext) (inp : ClarifyInput)
    (r : ClarifyResponse) (osynth : Except Unit SynthResponse) :
    ∃ c, (continueCall ctx inp r osynth).1 = some (c, 3600)
      ∧ c.questions_asked = ctx.questions_asked + 1
      ∧ (c.is_complete = true →
          ∃ s, c.context_summary = some s ∧ s.isEmpty = false) :=
  ⟨_, rfl, continueCtx_counter _ _ _, continueCtx_complete _ _ _⟩

/-- Step preservation: a successful call keeps the persisted counter ≤ 5. -/
theorem executeClarify_counter_le (store : CtxStore) (inp : ClarifyInput)
    (omain : Except Unit ClarifyResponse) (osynth : Except Unit SynthResponse)
    (st' : CtxStore) (out : ClarifyOutput)
    (hok : executeClarify store inp omain osynth = .ok (st', out))
    (hle : (storedCtx store).questions_asked ≤ 5) :
    ∀ c ttl, st' = some (c, ttl) → c.questions_asked ≤ 5 := by
  intro c ttl hst
  rcases executeClarify_cases store inp omain osynth st' out hok with
    ⟨h5, heq⟩ | ⟨h5, hemp, r, homain, heq⟩ | ⟨h5, hemp, r, homain, heq⟩
  · rw [forceCompletion_eq] at heq
    have h1 : st' = some ({ (storedCtx store) with
        merged := updateKeys (storedCtx store).merged
          (forcedSummary (storedCtx store) inp.conversation_history osynth),
        context_summary := some (forcedSummary (storedCtx store) inp.conversation_history osynth),
        is_complete := true, forced_completion := true }, 3600) :=
      congrArg Prod.fst heq
    rw [h1] at hst
    injection hst with hc
    injection hc with hc1 _
    rw [← hc1]
    exact hle
  · have h1 : st' = (firstCall (storedCtx store) inp r).1 := congrArg Prod.fst heq
    rw [h1] at hst
    unfold firstCall at hst
    simp only at hst
    injection hst with hc
    injection hc with hc1 _
    rw [← hc1]
    exact (by norm_num : (1 : Nat) ≤ 5)
  · obtain ⟨c', hc', hcount, _⟩ := continueCall_fst (storedCtx store) inp r osynth
    have h1 : st' = (continueCall (storedCtx store) inp r osynth).1 := congrArg Prod.fst heq
    rw [h1, hc'] at hst
    injection hst with hc
    injection hc with hc1 _
    rw [← hc1, hcount]
    omega

/-- Step preservation: a successful call keeps the completion/summary
invariant of the persisted context. -/
theorem executeClarify_summary_inv (store : CtxStore) (inp : ClarifyInput)
    (omain : Except Unit ClarifyResponse) (osynth : Except Unit SynthResponse)
    (st' : CtxStore) (out : ClarifyOutput)
    (hok : executeClarify store inp omain osynth = .ok (st', out))
    (hP : ∀ c ttl, store = some (c, ttl) → c.is_complete = true →
        ∃ s, c.context_summary = some s ∧ s.isEmpty = false) :
    ∀ c ttl, st' = some (c, ttl) → c.is_complete = true →
      ∃ s, c.context_summary = some s ∧ s.isEmpty = false := by
  have hPctx : (storedCtx store).is_complete = true →
      ∃ s, (storedCtx store).context_summary = some s ∧ s.isEmpty = false := by
    cases store with
    | none => intro h; simp [storedCtx] at h
    | some p => exact hP p.1 p.2 (by simp [storedCtx])
  intro c ttl hst hcomp
  rcases executeClarify_cases store inp omain osynth st' out hok with
    ⟨h5, heq⟩ | ⟨h5, hemp, r, homain, heq⟩ | ⟨h5, hemp, r, homain, heq⟩
  · rw [forceCompletion_eq] at heq
    have h1 : st' = some ({ (storedCtx store) with
        merged := updateKeys (storedCtx store).merged
          (forcedSummary (storedCtx store) inp.conversation_history osynth),
        context_summary := some (forcedSummary (storedCtx store) inp.conversation_history osynth),
        is_complete := true, forced_completion := true }, 3600) :=
      congrArg Prod.fst heq
    rw [h1] at hst
    injection hst with hc
    injection hc with hc1 _
    rw [← hc1]
    exact ⟨forcedSummary (storedCtx store) inp.conversation_history osynth, rfl,
      forcedSummary_ne_empty _ _ _⟩
  · have h1 : st' = (firstCall (storedCtx store) inp r).1 := congrArg Prod.fst heq
    rw [h1] at hst
    unfold firstCall at hst
    simp only at hst
    injection hst with hc
    injection hc with hc1 _
    rw [← hc1] at hcomp ⊢
    simp only at hcomp ⊢
    exact hPctx hcomp
  · obtain ⟨c', hc', _, hsum⟩ := continueCall_fst (storedCtx store) inp r osynth
    have h1 : st' = (continueCall (storedCtx store) inp r osynth).1 := congrArg Prod.fst heq
    rw [h1, hc'] at hst
    injection hst with hc
    injection hc with hc1 _
    rw [← hc1] at hcomp ⊢
    exact hsum hcomp

/-- C1 counterexample: at the question cap, when the synthesis call
returns a dict carrying only `"goals"`, the forced-completion summary is
stored and returned as-is and lacks five of the six required keys. -/
theorem clarify_forced_missing_keys_counterexample :
    (∃ c out, executeClarify (some ({ questions_asked := 5 }, 3600))
        { conversation_history := [{ role := "user", content := "hi" }] }
        (.error ()) (.ok { whole := [("goals", ["g"])] })
        = .ok (some (c, 3600), out)
      ∧ out.is_complete = true ∧ out.forced_completion = true
      ∧ out.context_summary = some [("goals", ["g"])]
      ∧ c.context_summary = some [("goals", ["g"])])
    ∧ hasAllKeys [("goals", ["g"])] = false := by
  exact ⟨⟨_, _, rfl, rfl, rfl, rfl, rfl⟩, by decide⟩

/-- C1 (amended): the persisted questions-asked counter never exceeds 5
over any sequence of successful calls; a call arriving with the counter
at 5 or more short-circuits — for every main-oracle value — to forced
completion (`is_complete` and `forced_completion` true, no question) with
the synthesized summary, or with the minimal default summary when
synthesis fails, and only in the default case are all six keys
guaranteed. -/
theorem clarify_question_cap (s : CtxStore) (store : CtxStore) (inp : ClarifyInput)
    (omain : Except Unit ClarifyResponse) (osynth : Except Unit SynthResponse)
    (hreach : ClarifyReachable s)
    (h5 : 5 ≤ (storedCtx store).questions_asked) :
    (∀ c ttl, s = some (c, ttl) → c.questions_asked ≤ 5)
    ∧ executeClarify store inp omain osynth
        = .ok (forceCompletion (storedCtx store) inp.conversation_history osynth)
    ∧ (forceCompletion (storedCtx store) inp.conversation_history osynth).2.is_complete = true
    ∧ (forceCompletion (storedCtx store) inp.conversation_history osynth).2.forced_completion = true
    ∧ (forceCompletion (storedCtx store) inp.conversation_history osynth).2.question = none
    ∧ (forceCompletion (storedCtx store) inp.conversation_history osynth).2.context_summary
        = some (forcedSummary (storedCtx store) inp.conversation_history osynth)
    ∧ (pyTruthySummary (genContextSummary inp.conversation_history osynth) = false →
        hasAllKeys (forcedSummary (storedCtx store) inp.conversation_history osynth) = true) := by
  refine ⟨?_, ?_, rfl, rfl, rfl, rfl, ?_⟩
  · induction hreach with
    | init => intro c ttl h; cases h
    | step hr hok ih =>
      next s₀ s₁ inp₁ omain₁ osynth₁ out₁ =>
        intro c ttl hst
        have hle : (storedCtx s₀).questions_asked ≤ 5 := by
          cases s₀ with
          | none => simp [storedCtx]
          | some p => exact ih p.1 p.2 rfl
        exact executeClarify_counter_le s₀ inp₁ omain₁ osynth₁ s₁ out₁ hok hle c ttl hst
  · unfold executeClarify
    rw [if_pos h5]
  · intro hf
    unfold forcedSummary
    rw [if_neg (by simp [hf])]
    exact defaultSummary_hasAllKeys _

/-- C1 witness. -/
theorem clarify_question_cap_witness :
    (∀ c ttl, (none : CtxStore) = some (c, ttl) → c.questions_asked ≤ 5)
    ∧ executeClarify (some ({ questions_asked := 5 }, 3600)) {} (.error ()) (.error ())
        = .ok (forceCompletion (storedCtx (some ({ questions_asked := 5 }, 3600))) [] (.error ()))
    ∧ (pyTruthySummary (genContextSummary [] (.error ())) = false →
        hasAllKeys (forcedSummary (storedCtx (some ({ questions_asked := 5 }, 3600))) [] (.error ())) = true) := by
  have h := clarify_question_cap none (some ({ questions_asked := 5 }, 3600)) {}
    (.error ()) (.error ()) ClarifyReachable.init (by decide)
  exact ⟨h.1, h.2.1, h.2.2.2.2.2.2⟩

/-- C4 counterexample: on a continuing call the reasoning service may
signal completion with a summary carrying only `"goals"`; it is stored
with `is_complete = true` and lacks five required keys. -/
theorem clarify_complete_missing_keys_counterexample :
    (∃ c out, executeClarify (some ({ questions_asked := 1 }, 3600))
        { user_response := some "a",
          conversation_history := [{ role := "user", content := "f" },
            { role := "assistant", content := "q" }] }
        (.ok { is_complete := true, context_summary := some [("goals", ["g"])] })
        (.error ())
        = .ok (some (c, 3600), out)
      ∧ c.is_complete = true
      ∧ c.context_summary = some [("goals", ["g"])]
      ∧ out.is_complete = true)
    ∧ hasAllKeys [("goals", ["g"])] = false := by
  exact ⟨⟨_, _, rfl, rfl, rfl, rfl⟩, by decide⟩

/-- C4 (amended): on every store reachable by successful clarification
calls, a context whose completion flag is true holds a non-empty stored
summary — exactly the document the reasoning service returned or
synthesized, unvalidated — and all six required keys are guaranteed
whenever the summary is the fabricated minimal default (the
forced-completion path with failed or empty synthesis). -/
theorem clarify_complete_summary_inv (s : CtxStore) (ctx : FeatureContext)
    (hist : List Msg) (osynth : Except Unit SynthResponse)
    (hreach : ClarifyReachable s)
    (hsynth : pyTruthySummary (genContextSummary hist osynth) = false) :
    (∀ c ttl, s = some (c, ttl) → c.is_complete = true →
        ∃ sum, c.context_summary = some sum ∧ sum.isEmpty = false)
    ∧ forcedSummary ctx hist osynth = defaultSummary ctx
    ∧ (∃ c, (forceCompletion ctx hist osynth).1 = some (c, 3600)
        ∧ c.is_complete = true
        ∧ c.context_summary = some (defaultSummary ctx)
        ∧ hasAllKeys (defaultSummary ctx) = true) := by
  have hdef : forcedSummary ctx hist osynth = defaultSummary ctx := by
    unfold forcedSummary
    rw [if_neg (by simp [hsynth])]
  refine ⟨?_, hdef, ?_⟩
  · induction hreach with
    | init => intro c ttl h; cases h
    | step hr hok ih =>
      next s₀ s₁ inp₁ omain₁ osynth₁ out₁ =>
        intro c ttl hst
        refine executeClarify_summary_inv s₀ inp₁ omain₁ osynth₁ s₁ out₁ hok ?_ c ttl hst
        intro c0 ttl0 h0
        exact ih c0 ttl0 h0
  · rw [forceCompletion_eq]
    exact ⟨_, rfl, rfl, by rw [hdef], defaultSummary_hasAllKeys ctx⟩

/-- C4 witness. -/
theorem clarify_complete_summary_inv_witness :
    (∀ c ttl, (none : CtxStore) = some (c, ttl) → c.is_complete = true →
        ∃ sum, c.context_summary = some sum ∧ sum.isEmpty = false)
    ∧ forcedSummary { feature_name := some "F" } [] (.error ()) = defaultSummary { feature_name := some "F" } := by
  have h := clarify_complete_summary_inv none { feature_name := some "F" } [] (.error ())
    ClarifyReachable.init (by decide)
  exact ⟨h.1, h.2.1⟩

/-- C9 counterexample: a call that sets the completion flag persists with
the same default TTL (3600 s) as an incomplete call — the TTL is not
extended on completion. -/
theorem clarify_ttl_counterexample :
    (∃ c1 out1, executeClarify none { feature_name := some "F" }
        (.ok { question := some "Q" }) (.error ())
        = .ok (some (c1, 3600), out1) ∧ out1.is_complete = false)
    ∧ (∃ c2 out2, executeClarify (some ({ questions_asked := 5 }, 3600))
        { conversation_history := [{ role := "user", content := "hi" }] }
        (.error ()) (.error ())
        = .ok (some (c2, 3600), out2) ∧ out2.is_complete = true ∧ c2.is_complete = true)
    ∧ ¬ (3600 : Nat) > 3600 := by
  exact ⟨⟨_, _, rfl, rfl⟩, ⟨_, _, rfl, rfl, rfl⟩, by omega⟩

/-- C9 (amended): every successfully completing clarification call —
first, continuing, or forced — persists the updated context to the
ContextStore, always with the default TTL of 3600 seconds, whether or not
the completion flag is set. -/
theorem clarify_persist_ttl (store : CtxStore) (inp : ClarifyInput)
    (omain : Except Unit ClarifyResponse) (osynth : Except Unit SynthResponse)
    (st' : CtxStore) (out : ClarifyOutput)
    (hok : executeClarify store inp omain osynth = .ok (st', out)) :
    ∃ c, st' = some (c, 3600) := by
  rcases executeClarify_cases store inp omain osynth st' out hok with
    ⟨h5, heq⟩ | ⟨h5, hemp, r, homain, heq⟩ | ⟨h5, hemp, r, homain, heq⟩
  · rw [forceCompletion_eq] at heq
    exact ⟨_, congrArg Prod.fst heq⟩
  · exact ⟨_, congrArg Prod.fst heq⟩
  · obtain ⟨c', hc', _, _⟩ := continueCall_fst (storedCtx store) inp r osynth
    exact ⟨c', (congrArg Prod.fst heq).trans hc'⟩

/-- C9 witness. -/
theorem clarify_persist_ttl_witness :
    ∃ c, (firstCall (storedCtx none) { feature_name := some "F" } { question := some "Q" }).1
      = some (c, 3600) :=
  clarify_persist_ttl none { feature_name := some "F" } (.ok { question := some "Q" })
    (.error ())
    (firstCall (storedCtx none) { feature_name := some "F" } { question := some "Q" }).1
    (firstCall (storedCtx none) { feature_name := some "F" } { question := some "Q" }).2
    rfl

/-- C8 witness. -/
theorem storyGen_precondition_witness :
    generateFromFeatureId (some (({ is_complete := true } : FeatureContext), 3600))
      = .ok { is_complete := true }
    ∧ generateFromFeatureId (some (({ } : FeatureContext), 3600))
      = .error .incompleteContext := by
  refine ⟨(storyGen_precondition { is_complete := true } 3600).1 rfl, ?_⟩
  exact ((storyGen_precondition {} 3600).2.2 rfl rfl rfl).1

end AutoScrum
